import Mathlib

/-!
Verification development for the AI PR reviewer core: the diff segmenter
(`parseAndHashDiff`), the review cache (`getCachedReview` / `cacheReview`),
the Gemini retry client (`getAiReviewAsJson` / `getAiReviewAsText`) and the
review orchestrator (`reviewPullRequest`), shallowly embedded as pure Lean
functions.  Effectful collaborators (the relational store, the HTTP layer,
the Gemini backend, GitHub comment posting) are passed in as explicit
outcome parameters, so every function here is total and executable; an
exception escaping a TypeScript region is modelled as an explicit
`thrown`/`Except.error` value.  Wall-clock duration fields of the metrics
record are not modelled (real time); backoff delays are recorded as the
literal millisecond amounts the code computes.
-/

namespace AiPrReviewer

/-! ### String primitives

Structural re-implementations of the JavaScript string operations the
source uses (`split('\n')`, `startsWith`, `substring`, `trim`,
`split(' b/')`, `Array.join`), written by recursion on the character list
so that concrete evaluation reduces in the kernel. -/

/-- `s.split('\n')` of JavaScript: split at every newline, keeping empty
pieces; the empty string yields `[""]`. -/
def splitLinesAux : List Char → List Char → List String
  | [], acc => [String.mk acc.reverse]
  | c :: cs, acc =>
    if c = '\n' then String.mk acc.reverse :: splitLinesAux cs []
    else splitLinesAux cs (c :: acc)

def splitLines (s : String) : List String :=
  splitLinesAux s.data []

/-- `line.startsWith(p)` of JavaScript. -/
def lineStarts (line p : String) : Bool :=
  p.data.isPrefixOf line.data

/-- `s.substring(n)` of JavaScript (our inputs are ASCII, so code units
and characters coincide). -/
def strDrop (s : String) (n : Nat) : String :=
  String.mk (s.data.drop n)

def isWsChar (c : Char) : Bool :=
  c = ' ' ∨ c = '\t' ∨ c = '\n' ∨ c = '\r'

/-- `s.trim()` of JavaScript (restricted to the common whitespace
characters, which is all the diff headers can contain). -/
def strTrim (s : String) : String :=
  String.mk (((s.data.dropWhile isWsChar).reverse.dropWhile isWsChar).reverse)

/-- `rest.split(' b/')` of JavaScript: left-to-right, non-overlapping
occurrences of the 3-character separator. -/
def splitBSlashAux : List Char → List Char → List String
  | ' ' :: 'b' :: '/' :: rest, acc =>
    String.mk acc.reverse :: splitBSlashAux rest []
  | c :: rest, acc => splitBSlashAux rest (c :: acc)
  | [], acc => [String.mk acc.reverse]

def splitBSlash (s : String) : List String :=
  splitBSlashAux s.data []

/-- `parts.join(sep)` of JavaScript. -/
def joinSep (sep : String) : List String → String
  | [] => ""
  | [s] => s
  | s :: rest => s ++ sep ++ joinSep sep rest

/-! ### Diff segmenter (`parseAndHashDiff`, dashboard module lines 225-274) -/

/-- Path extraction from a `diff --git a/X b/Y` header, following the
source's greedy regex match against `diff --git a\/(.+) b\/(.+)$`:
group 1 is maximal, i.e. the separator ` b/` is taken at the last
occurrence that leaves both groups non-empty; when no such split exists
(regex failure) the whole header line is used as the path. -/
def gitDiffPath (line : String) : String :=
  let rest := strDrop line 13
  let parts := splitBSlash rest
  let ks := (List.range parts.length).filter fun k =>
    decide (1 ≤ k) && !(joinSep " b/" (parts.take k) == "")
      && !(joinSep " b/" (parts.drop k) == "")
  match ks.getLast? with
  | some k => joinSep " b/" (parts.take k)
  | none => line

/-- One file's contribution to the diff: path, content fingerprint, the
fragment's raw text, and its lines. -/
structure DiffFile where
  path : String
  contentHash : String
  fullDiff : String
  lines : List String
deriving DecidableEq, Repr

/-- Parser state of the line scan: the open fragment (path and
accumulated lines) and the insertion-ordered path → lines map. -/
structure ParseState where
  currentFile : Option (String × List String)
  fileMap : List (String × List String)
deriving DecidableEq, Repr

/-- JavaScript object assignment `fileMap[path] = lines`: the key
`"__proto__"` hits the `Object.prototype.__proto__` setter and creates
no own property; any other existing key keeps its position and gets the
new value; a fresh key is appended. -/
def fmInsert (m : List (String × List String)) (k : String)
    (v : List String) : List (String × List String) :=
  if k = "__proto__" then m
  else if m.any (fun e => e.1 = k) then
    m.map (fun e => if e.1 = k then (k, v) else e)
  else m ++ [(k, v)]

def isDigitCh (c : Char) : Bool :=
  '0' ≤ c && c ≤ '9'

def digitsToNat (l : List Char) : Nat :=
  l.foldl (fun n c => n * 10 + (c.toNat - '0'.toNat)) 0

/-- Whether a string is a canonical array-index key in the JavaScript
sense: the canonical decimal numeral of an integer in `[0, 2^32 - 2]`
(digits only, no leading zero except for `"0"` itself). -/
def isArrayIndexKey (s : String) : Bool :=
  match s.data with
  | [] => false
  | c :: cs =>
    (c :: cs).all isDigitCh &&
    (decide (c ≠ '0') || decide (cs = [])) &&
    decide (digitsToNat (c :: cs) ≤ 4294967294)

def keyVal (e : String × List String) : Nat :=
  digitsToNat e.1.data

/-- Stable insertion of an entry into a list sorted by ascending numeric
key value. -/
def insertByVal (e : String × List String) :
    List (String × List String) → List (String × List String)
  | [] => [e]
  | f :: rest =>
    if keyVal e < keyVal f then e :: f :: rest else f :: insertByVal e rest

def sortByVal : List (String × List String) → List (String × List String)
  | [] => []
  | e :: rest => insertByVal e (sortByVal rest)

/-- `Object.entries` own-property enumeration order: array-index keys in
ascending numeric order first, then the remaining string keys in
insertion order. -/
def fmEntries (m : List (String × List String)) :
    List (String × List String) :=
  sortByVal (m.filter fun e => isArrayIndexKey e.1)
    ++ m.filter fun e => !(isArrayIndexKey e.1)

/-- Flush the open fragment into the map when it has accumulated lines. -/
def flushCurrent (st : ParseState) : List (String × List String) :=
  match st.currentFile with
  | some pf => if pf.2.length > 0 then fmInsert st.fileMap pf.1 pf.2 else st.fileMap
  | none => st.fileMap

/-- Whether a line opens a new file block. -/
def isBoundary (line : String) : Bool :=
  lineStarts line "diff --git a/" || lineStarts line "--- a/"

/-- One iteration of the scan loop: a boundary line flushes the open
fragment and opens a new one; every line is then appended to the open
fragment when one exists. -/
def parseStep (st : ParseState) (line : String) : ParseState :=
  let st1 :=
    if isBoundary line then
      let path :=
        if lineStarts line "diff --git a/" then gitDiffPath line
        else strDrop line 6
      { currentFile := some (strTrim path, []), fileMap := flushCurrent st }
    else st
  match st1.currentFile with
  | some pf => { st1 with currentFile := some (pf.1, pf.2 ++ [line]) }
  | none => st1

/-- `parseAndHashDiff`: split the diff into lines, scan for file
boundaries, and emit one `DiffFile` per recorded path, in the
`Object.entries` enumeration order of the recorded map.  The content
hasher (sha-256 of the fragment text, provided by the external crypto
library) is passed in as the function `hash`; the claims only use that it
is a function of the fragment text. -/
def parseAndHashDiff (hash : String → String) (fullDiff : String) :
    List DiffFile :=
  let st := (splitLines fullDiff).foldl parseStep
    { currentFile := none, fileMap := [] }
  (fmEntries (flushCurrent st)).map fun pf =>
    let d := joinSep "\n" pf.2
    { path := pf.1, contentHash := hash d, fullDiff := d, lines := pf.2 }

/-! ### Review cache (cache module lines 401-473)

The store is the `ReviewCache` table: an association list keyed by the
unique triple `(repositoryId, filePath, contentHash)`.  A stored value is
the JSON text `JSON.stringify` produced from a list of line comments;
the value space is modelled as a payload type that distinguishes texts
that `JSON.parse` reads back as an array (`jsonComments`) from any other
stored text (`nonArray`), with parse-of-stringify the identity — the
round-trip law of the external JSON runtime.  Storage faults (the
`catch` branches) are injected through the fault predicates. -/

structure LineComment where
  file : String
  line : Int
  comment : String
deriving DecidableEq, Repr

inductive ReviewPayload
  | jsonComments (cs : List LineComment)
  | nonArray (s : String)
deriving DecidableEq, Repr

structure CacheKey where
  repoId : Nat
  path : String
  hash : String
deriving DecidableEq, Repr

abbrev Cache := List (CacheKey × ReviewPayload)

def cacheGet : Cache → CacheKey → Option ReviewPayload
  | [], _ => none
  | e :: σ, k => if e.1 = k then some e.2 else cacheGet σ k

/-- Prisma `upsert` on the unique key: update the value in place when the
key exists, append a new row otherwise. -/
def cacheUpsert : Cache → CacheKey → ReviewPayload → Cache
  | [], k, v => [(k, v)]
  | e :: σ, k, v => if e.1 = k then (k, v) :: σ else e :: cacheUpsert σ k v

/-- `getCachedReview`: a storage fault is caught and reported as a miss
(`none`); otherwise the lookup result is returned as is. -/
def getCachedReview (σ : Cache) (readFault : CacheKey → Bool)
    (k : CacheKey) : Option ReviewPayload :=
  if readFault k then none else cacheGet σ k

/-- `cacheReview`: a storage fault is caught, the store is left unchanged
and `false` is returned; otherwise the upsert is performed and `true`
returned. -/
def cacheReview (σ : Cache) (writeFault : CacheKey → Bool) (k : CacheKey)
    (v : ReviewPayload) : Cache × Bool :=
  if writeFault k then (σ, false) else (cacheUpsert σ k v, true)

/-! ### Gemini retry client (dashboard module lines 279-430)

One HTTP attempt is an injected outcome: either a response (whose
`candidates[0].content` part may be missing, modelled by `Option`) or a
thrown error.  A thrown error is either an axios error carrying the
optional HTTP status, or any other JavaScript error. -/

inductive JsError
  | axios (status : Option Nat)
  | plain (msg : String)
deriving DecidableEq, Repr

/-- The response text of a structured-review attempt, classified by what
the regex `\[[\s\S]*\]` and `JSON.parse` do with it: a bracketed span
that parses as an array (`jsonArray`), a bracketed span on which
`JSON.parse` throws (`badArray`), or a text with no bracketed span
(`plain`). -/
inductive GeminiText
  | jsonArray (cs : List LineComment)
  | badArray (s : String)
  | plain (s : String)
deriving DecidableEq, Repr

inductive JsonAttempt
  | response (content : Option GeminiText)
  | failure (e : JsError)
deriving DecidableEq, Repr

inductive TextAttempt
  | response (content : Option String)
  | failure (e : JsError)
deriving DecidableEq, Repr

/-- The retry guard `!isAxiosError || (status && (status === 429 ||
status === 503 || status >= 500))`: a non-axios error is retryable, an
axios error is retryable exactly when it carries one of the listed
statuses.  (The truthiness guard `status &&` only excludes status 0,
which the disjunction rejects anyway, and a missing status — e.g. a
network failure — makes the whole conjunct falsy.) -/
def geminiRetryable : JsError → Bool
  | .plain _ => true
  | .axios none => false
  | .axios (some s) => s == 429 || s == 503 || decide (s ≥ 500)

/-- The body of one `try` block of `getAiReviewAsJson`. -/
def runJsonAttempt : JsonAttempt → Except JsError (List LineComment)
  | .response (some (.jsonArray cs)) => .ok cs
  | .response (some (.badArray s)) => .error (.plain ("Unexpected token in JSON: " ++ s))
  | .response (some (.plain _)) => .ok []
  | .response none => .error (.plain "Invalid response structure from Gemini")
  | .failure e => .error e

/-- The body of one `try` block of `getAiReviewAsText`. -/
def runTextAttempt : TextAttempt → Except JsError String
  | .response (some t) => .ok ("### 🤖 AI Code Review\n\n" ++ t)
  | .response none => .error (.plain "Invalid response structure from Gemini")
  | .failure e => .error e

/-- Observable trace of one client call: the propagated result, how many
attempts ran, and the backoff delays slept between them. -/
structure RetryTrace (B : Type) where
  result : Except JsError B
  attemptsMade : Nat
  delays : List Nat
deriving Repr

/-- The retry loop shared by both client functions, with the remaining
fuel `maxRetries - attempt` as the recursion measure; `fuel = 0` inside
the successor branch means `attempt === maxRetries - 1`, where any error
is propagated.  The fuel-exhausted base case is the dead
`throw lastError` after the loop. -/
def retryAux (run : Nat → Except JsError B) (attempt : Nat) :
    Nat → RetryTrace B
  | 0 => { result := .error (.plain "Failed to get AI review after retries"),
           attemptsMade := attempt, delays := [] }
  | fuel + 1 =>
    match run attempt with
    | .ok v => { result := .ok v, attemptsMade := attempt + 1, delays := [] }
    | .error e =>
      if geminiRetryable e = false ∨ fuel = 0 then
        { result := .error e, attemptsMade := attempt + 1, delays := [] }
      else
        let r := retryAux run (attempt + 1) fuel
        { r with delays := 2 ^ attempt * 1000 :: r.delays }

def geminiRetry (run : Nat → Except JsError B) : RetryTrace B :=
  retryAux run 0 3

def getAiReviewAsJson (atts : Nat → JsonAttempt) :
    RetryTrace (List LineComment) :=
  geminiRetry (fun i => runJsonAttempt (atts i))

def getAiReviewAsText (atts : Nat → TextAttempt) : RetryTrace String :=
  geminiRetry (fun i => runTextAttempt (atts i))

/-- `error.message` of the propagated JavaScript error. -/
def errMessage : JsError → String
  | .axios none => "Network Error"
  | .axios (some s) => "Request failed with status code " ++ toString s
  | .plain m => m

/-! ### Review orchestrator (dashboard module lines 503-710) -/

/-- One iteration of the cache-check loop: a hit bumps the cached
counter and, when the stored text parses as an array, appends its
comments to the accumulator; a miss appends the file to the pending
list. -/
def partitionStep (σ : Cache) (readFault : CacheKey → Bool) (repoId : Nat)
    (acc : Nat × List LineComment × List DiffFile) (file : DiffFile) :
    Nat × List LineComment × List DiffFile :=
  match getCachedReview σ readFault ⟨repoId, file.path, file.contentHash⟩ with
  | some (.jsonComments cs) => (acc.1 + 1, acc.2.1 ++ cs, acc.2.2)
  | some (.nonArray _) => (acc.1 + 1, acc.2.1, acc.2.2)
  | none => (acc.1, acc.2.1, acc.2.2 ++ [file])

/-- The cache-check loop over all segmented files, returning
`(fileCachedCount, cachedLineComments, filesToReview)`. -/
def partitionFiles (σ : Cache) (readFault : CacheKey → Bool) (repoId : Nat)
    (files : List DiffFile) : Nat × List LineComment × List DiffFile :=
  files.foldl (partitionStep σ readFault repoId) (0, [], [])

/-- One iteration of the cache write-back loop: when the comment's
`file` field matches a pending file's path (via `Array.prototype.find`),
upsert that file's entry with the JSON text of all returned comments
attributed to that file; otherwise do nothing.  `cs` is the whole
returned comment list (`newComments`). -/
def writeBackStep (writeFault : CacheKey → Bool) (repoId : Nat)
    (pending : List DiffFile) (cs : List LineComment) (σ : Cache)
    (c : LineComment) : Cache :=
  match pending.find? (fun f => f.path = c.file) with
  | some f =>
    (cacheReview σ writeFault ⟨repoId, f.path, f.contentHash⟩
      (.jsonComments (cs.filter fun c2 => c2.file = c.file))).1
  | none => σ

/-- The cache write-back loop over every returned comment. -/
def writeBack (σ : Cache) (writeFault : CacheKey → Bool) (repoId : Nat)
    (pending : List DiffFile) (newComments : List LineComment) : Cache :=
  newComments.foldl (writeBackStep writeFault repoId pending newComments) σ

/-- State after the Gemini stage of the pass: the (possibly updated)
cache, the comment accumulator, the fallback text, the argument of every
`getAiReviewAsJson` / `getAiReviewAsText` call made, and the message of
an exception thrown out of the stage. -/
structure AiStageOut where
  cache : Cache
  comments : List LineComment
  fallback : Option String
  jsonBatches : List String
  textBatches : List String
  thrown : Option String
deriving Repr

/-- The Gemini stage: skipped when nothing is pending; otherwise the
pending raw texts are joined and reviewed once, falling back to the
free-text review when the structured call throws, and rethrowing the
fallback's error when both throw. -/
def aiStage (jsonAtts : Nat → JsonAttempt) (textAtts : Nat → TextAttempt)
    (writeFault : CacheKey → Bool) (repoId : Nat) (σ : Cache)
    (cachedComments : List LineComment) (pending : List DiffFile) :
    AiStageOut :=
  if pending.length > 0 then
    let batch := joinSep "\n" (pending.map fun f => f.fullDiff)
    match (getAiReviewAsJson jsonAtts).result with
    | .ok newComments =>
      { cache := writeBack σ writeFault repoId pending newComments,
        comments := cachedComments ++ newComments, fallback := none,
        jsonBatches := [batch], textBatches := [], thrown := none }
    | .error _ =>
      match (getAiReviewAsText textAtts).result with
      | .ok fb =>
        { cache := σ, comments := cachedComments, fallback := some fb,
          jsonBatches := [batch], textBatches := [batch], thrown := none }
      | .error e =>
        { cache := σ, comments := cachedComments, fallback := none,
          jsonBatches := [batch], textBatches := [batch],
          thrown := some (errMessage e) }
  else
    { cache := σ, comments := cachedComments, fallback := none,
      jsonBatches := [], textBatches := [], thrown := none }

/-- Outcomes of the effectful collaborators of one pass: cache-store
faults, the `GITHUB_TOKEN` value, which line-comment posts succeed (by
position), and the outcome of the summary / fallback comment post. -/
structure IoEnv where
  readFault : CacheKey → Bool
  writeFault : CacheKey → Bool
  token : Option String
  postOk : Nat → Bool
  postSummary : Except String Unit
  postFallback : Except String Unit

/-- Result of the diff-processing region of the pass (dashboard module
lines 575-694): the trace of the stage plus the counters the return
value reports; `thrown` carries the message of an exception escaping the
region to the surrounding `catch`, with `lineCommentCount` holding the
counter's value at that moment. -/
structure ProcessResult where
  cache : Cache
  comments : List LineComment
  fallback : Option String
  jsonBatches : List String
  textBatches : List String
  lineCommentCount : Nat
  filesTotalCount : Nat
  fileCachedCount : Nat
  thrown : Option String
deriving Repr

/-- Control flow of the token fetch and comment-posting tail of the
pass, as the pair (final value of the `lineCommentCount` counter,
message of the exception escaping the region, if any).  An exception
thrown by the Gemini stage skips the tail entirely. -/
def postCtrl (token : Option String) (postOk : Nat → Bool)
    (postSummary postFallback : Except String Unit)
    (comments : List LineComment) (fallback : Option String)
    (thr : Option String) : Nat × Option String :=
  match thr with
  | some m => (0, some m)
  | none =>
    match token with
    | none => (0, some "GitHub token not configured")
    | some _ =>
      if comments.length > 0 then
        let cnt := ((List.range comments.length).filter postOk).length
        if cnt > 0 then
          match postSummary with
          | .error m => (cnt, some m)
          | .ok _ => (cnt, none)
        else (cnt, none)
      else
        match fallback with
        | some _ =>
          match postFallback with
          | .error m => (0, some m)
          | .ok _ => (1, none)
        | none => (0, none)

/-- The token fetch and comment-posting tail of the pass, applied to the
Gemini stage's output. -/
def postStage (io : IoEnv) (filesTotalCount fileCachedCount : Nat)
    (s : AiStageOut) : ProcessResult :=
  let ctrl := postCtrl io.token io.postOk io.postSummary io.postFallback
    s.comments s.fallback s.thrown
  { cache := s.cache, comments := s.comments, fallback := s.fallback,
    jsonBatches := s.jsonBatches, textBatches := s.textBatches,
    lineCommentCount := ctrl.1, filesTotalCount, fileCachedCount,
    thrown := ctrl.2 }

/-- The diff-processing region of `reviewPullRequest` (dashboard module
lines 575-694): segment and hash, check the cache per file, run the
Gemini stage on the pending batch, then post. -/
def processDiff (hash : String → String) (jsonAtts : Nat → JsonAttempt)
    (textAtts : Nat → TextAttempt) (io : IoEnv) (repoId : Nat) (σ : Cache)
    (diff : String) : ProcessResult :=
  let files := parseAndHashDiff hash diff
  let part := partitionFiles σ io.readFault repoId files
  let s := aiStage jsonAtts textAtts io.writeFault repoId σ part.2.1 part.2.2
  postStage io files.length part.1 s

/-- The metrics record a pass returns (wall-clock fields omitted: real
time is outside the model). -/
structure ReviewMetrics where
  lineCommentCount : Nat
  success : Bool
  errorMessage : Option String
  filesTotalCount : Option Nat
  fileCachedCount : Option Nat
deriving DecidableEq, Repr

/-- The `catch` branch of `reviewPullRequest`: a structured failure with
the captured message, the line-comment counter's value at the throw, and
zeroed file counters. -/
def failMetrics (msg : String) (cnt : Nat) : ReviewMetrics :=
  { lineCommentCount := cnt, success := false, errorMessage := some msg,
    filesTotalCount := some 0, fileCachedCount := some 0 }

/-- An early successful return that never reached the segmenter. -/
def earlySuccess : ReviewMetrics :=
  { lineCommentCount := 0, success := true, errorMessage := none,
    filesTotalCount := none, fileCachedCount := none }

/-- The return value of a pass that reached the diff-processing region:
an exception caught by the `catch` yields a structured failure carrying
the counter value at the throw, a completed region yields a success
record with the file counters. -/
def finishMetrics (r : ProcessResult) : ReviewMetrics :=
  match r.thrown with
  | some m => failMetrics m r.lineCommentCount
  | none =>
    { lineCommentCount := r.lineCommentCount, success := true,
      errorMessage := none, filesTotalCount := some r.filesTotalCount,
      fileCachedCount := some r.fileCachedCount }

/-- The webhook payload fields the pass reads; a payload whose
destructuring throws (e.g. no `pull_request` object) is passed as
`none`. -/
structure PrPayload where
  action : String
  prNumber : Nat
  githubRepoId : Nat
deriving DecidableEq, Repr

structure RepoConfig where
  customPrompt : Option String
  enabled : Bool
deriving DecidableEq, Repr

structure DbRepository where
  id : Nat
  name : String
  configuration : Option RepoConfig
deriving DecidableEq, Repr

/-- `reviewPullRequest`: the full pass.  `findRepo` is the outcome of
the repository lookup, `fetchDiff` the outcome of the diff download;
every exception thrown inside the `try` is captured by the `catch`,
which reports a structured failure. -/
def reviewPullRequest (hash : String → String)
    (jsonAtts : Nat → JsonAttempt) (textAtts : Nat → TextAttempt)
    (io : IoEnv) (payload : Option PrPayload)
    (findRepo : Except String (Option DbRepository))
    (fetchDiff : Except String String) (σ : Cache) : ReviewMetrics :=
  match payload with
  | none => failMetrics "Cannot read properties of undefined (reading number)" 0
  | some p =>
    if p.action ≠ "opened" ∧ p.action ≠ "synchronize" then earlySuccess
    else
      match findRepo with
      | .error m => failMetrics m 0
      | .ok none =>
        failMetrics ("Repository " ++ toString p.githubRepoId ++
          " not found in database") 0
      | .ok (some repo) =>
        if (match repo.configuration with
            | some c => !c.enabled | none => false : Bool) then earlySuccess
        else
          match fetchDiff with
          | .error m => failMetrics m 0
          | .ok diff =>
            if diff = "" then
              { lineCommentCount := 0, success := true, errorMessage := none,
                filesTotalCount := some 0, fileCachedCount := some 0 }
            else finishMetrics (processDiff hash jsonAtts textAtts io repo.id σ diff)

/-! ### Store lemmas -/

/-! ### Derived definitions and concrete fixtures used by the theorems -/

def fmKeys (m : List (String × List String)) : List String :=
  m.map fun e => e.1

/-- The fragment the segmenter emits for a recorded `(path, lines)`
pair. -/
def mkDiffFile (hash : String → String) (pf : String × List String) :
    DiffFile :=
  { path := pf.1, contentHash := hash (joinSep "\n" pf.2),
    fullDiff := joinSep "\n" pf.2, lines := pf.2 }

/-- A "simple" file block: opened by a `--- a/` header that is not also
a git header, with the block's recorded path equal to the trimmed
remainder of the header, and with no other line opening a file block. -/
def simpleBlockB (b : String × List String) : Bool :=
  match b.2 with
  | [] => false
  | hdr :: rest =>
    lineStarts hdr "--- a/" && !(lineStarts hdr "diff --git a/") &&
    (strTrim (strDrop hdr 6) == b.1) && rest.all (fun l => !(isBoundary l))

/-- Identity fingerprint, a legitimate instance of the hash parameter
for concrete runs (the claims use only that the fingerprint is a
function of the fragment text). -/
def hashId : String → String := fun s => s

/-- A minimal two-file unified diff. -/
def diffTwo : String :=
  "--- a/a.py\n+++ b/a.py\n@@ -1 +1 @@\n-x\n+y\n--- a/b.py\n+++ b/b.py\n@@ -1 +1 @@\n-u\n+v"

/-- Collaborators that all succeed. -/
def ioAllOk : IoEnv :=
  { readFault := fun _ => false, writeFault := fun _ => false,
    token := some "gh-token", postOk := fun _ => true,
    postSummary := .ok (), postFallback := .ok () }

/-- A backend that always returns one structured comment on `a.py`. -/
def jaOneA : Nat → JsonAttempt :=
  fun _ => .response (some (.jsonArray [⟨"a.py", 1, "use f-strings"⟩]))

/-- A backend whose free-text endpoint always answers. -/
def taPlain : Nat → TextAttempt := fun _ => .response (some "looks fine")

/-- A pre-seeded cache holding the `a.py` fragment of `diffTwo` under
the identity fingerprint. -/
def σSeedA : Cache :=
  [(⟨0, "a.py", "--- a/a.py\n+++ b/a.py\n@@ -1 +1 @@\n-x\n+y"⟩,
    .jsonComments [⟨"a.py", 2, "cached note"⟩])]

/-- A pre-seeded cache holding both fragments of `diffTwo`. -/
def σSeedBoth : Cache :=
  [(⟨0, "a.py", "--- a/a.py\n+++ b/a.py\n@@ -1 +1 @@\n-x\n+y"⟩,
    .jsonComments [⟨"a.py", 2, "cached note"⟩]),
   (⟨0, "b.py", "--- a/b.py\n+++ b/b.py\n@@ -1 +1 @@\n-u\n+v"⟩,
    .jsonComments [])]

/-- A three-file git-style diff: every file block opens with a
`diff --git` header followed by an `index` line and the `---`/`+++`
pair. -/
def diffGit3 : String :=
  "diff --git a/a.py b/a.py\nindex 1111111..2222222 100644\n--- a/a.py\n+++ b/a.py\n@@ -1 +1 @@\n-x\n+y\ndiff --git a/b.py b/b.py\nindex 3333333..4444444 100644\n--- a/b.py\n+++ b/b.py\n@@ -1 +1 @@\n-u\n+v\ndiff --git a/c.py b/c.py\nindex 5555555..6666666 100644\n--- a/c.py\n+++ b/c.py\n@@ -1 +1 @@\n-s\n+t"

/-- Three simple `--- a/` blocks with distinct paths. -/
def blocksThree : List (String × List String) :=
  [("a.py", ["--- a/a.py", "+++ b/a.py", "@@ -1 +1 @@", "-x", "+y"]),
   ("b.py", ["--- a/b.py", "+++ b/b.py", "@@ -1 +1 @@", "-u", "+v"]),
   ("c.py", ["--- a/c.py", "+++ b/c.py", "@@ -1 +1 @@", "-s", "+t"])]

/-- The minimal three-file diff whose lines are those of
`blocksThree`. -/
def diffThree : String :=
  "--- a/a.py\n+++ b/a.py\n@@ -1 +1 @@\n-x\n+y\n--- a/b.py\n+++ b/b.py\n@@ -1 +1 @@\n-u\n+v\n--- a/c.py\n+++ b/c.py\n@@ -1 +1 @@\n-s\n+t"

deriving instance DecidableEq for Except

/-- Attempt outcomes with a status-less axios failure (a network
failure) first and a parsable success afterwards. -/
def attsNet : Nat → JsonAttempt := fun i =>
  if i = 0 then .failure (.axios none) else .response (some (.jsonArray []))

/-- Attempt outcomes with one retryable 503 failure before success. -/
def attsRetry : Nat → JsonAttempt := fun i =>
  if i = 0 then .failure (.axios (some 503))
  else .response (some (.jsonArray []))

/-- A backend attributing one comment to each file of `diffTwo`. -/
def jaBoth : Nat → JsonAttempt :=
  fun _ => .response (some (.jsonArray
    [⟨"a.py", 1, "use f-strings"⟩, ⟨"b.py", 2, "rename variable"⟩]))

/-- Collaborators whose every cache write fails. -/
def ioWFail : IoEnv :=
  { readFault := fun _ => false, writeFault := fun _ => true,
    token := some "gh-token", postOk := fun _ => true,
    postSummary := .ok (), postFallback := .ok () }

/-- The `a.py` fragment of `diffTwo` under the identity fingerprint. -/
def fileA : DiffFile :=
  { path := "a.py",
    contentHash := "--- a/a.py\n+++ b/a.py\n@@ -1 +1 @@\n-x\n+y",
    fullDiff := "--- a/a.py\n+++ b/a.py\n@@ -1 +1 @@\n-x\n+y",
    lines := ["--- a/a.py", "+++ b/a.py", "@@ -1 +1 @@", "-x", "+y"] }

/-- Attempts whose response is plain prose with no JSON array in it. -/
def jaPlainText : Nat → JsonAttempt :=
  fun _ => .response (some (.plain "Looks good to me!"))

theorem cacheGet_upsert_self (σ : Cache) (k : CacheKey) (v : ReviewPayload) :
    cacheGet (cacheUpsert σ k v) k = some v := by
  induction σ with
  | nil => simp [cacheUpsert, cacheGet]
  | cons e σ ih =>
    by_cases h : e.1 = k
    · simp [cacheUpsert, h, cacheGet]
    · simp [cacheUpsert, h, cacheGet, ih]

theorem cacheGet_upsert_ne (σ : Cache) (k k' : CacheKey) (v : ReviewPayload)
    (h : k' ≠ k) : cacheGet (cacheUpsert σ k v) k' = cacheGet σ k' := by
  induction σ with
  | nil => simp [cacheUpsert, cacheGet, Ne.symm h]
  | cons e σ ih =>
    by_cases he : e.1 = k
    · simp [cacheUpsert, he, cacheGet, Ne.symm h, h]
    · by_cases he' : e.1 = k'
      · simp [cacheUpsert, he, cacheGet, he', h]
      · simp [cacheUpsert, he, cacheGet, he', ih]

theorem getCachedReview_nil (rf : CacheKey → Bool) (k : CacheKey) :
    getCachedReview [] rf k = none := by
  simp [getCachedReview, cacheGet]

/-- `Array.prototype.find`-style lookup of a pending file by path: when
the paths are pairwise distinct, the member with the sought path is the
one found. -/
theorem find?_path_eq (pending : List DiffFile) (f : DiffFile)
    (hmem : f ∈ pending)
    (hnd : (pending.map fun g => g.path).Nodup) :
    pending.find? (fun g => g.path = f.path) = some f := by
  induction pending with
  | nil => cases hmem
  | cons g l ih =>
    rcases List.mem_cons.mp hmem with rfl | hm
    · simp [List.find?_cons]
    · have hnd' := List.nodup_cons.mp hnd
      have hfp : f.path ∈ l.map (fun g => g.path) :=
        List.mem_map_of_mem (fun g => g.path) hm
      have hne : g.path ≠ f.path := by
        intro he
        exact hnd'.1 (by simpa [he] using hfp)
      simp only [List.find?_cons]
      have hd : (decide (g.path = f.path)) = false := by simp [hne]
      rw [hd]
      exact ih hm hnd'.2

/-! ### Partition-loop lemmas -/

theorem partition_count_aux (σ : Cache) (rf : CacheKey → Bool) (repoId : Nat)
    (l : List DiffFile) :
    ∀ a, (l.foldl (partitionStep σ rf repoId) a).1
        + (l.foldl (partitionStep σ rf repoId) a).2.2.length
      = a.1 + a.2.2.length + l.length := by
  induction l with
  | nil => intro a; simp
  | cons f l ih =>
    intro a
    rw [List.foldl_cons, ih]
    unfold partitionStep
    cases h : getCachedReview σ rf ⟨repoId, f.path, f.contentHash⟩ with
    | none => simp; omega
    | some p => cases p <;> simp <;> omega

/-- Invariant of the cache-check loop: `fileCachedCount + |filesToReview|`
equals the number of files scanned. -/
theorem partition_count (σ : Cache) (rf : CacheKey → Bool) (repoId : Nat)
    (files : List DiffFile) :
    (partitionFiles σ rf repoId files).1
        + (partitionFiles σ rf repoId files).2.2.length
      = files.length := by
  have := partition_count_aux σ rf repoId files (0, [], [])
  simpa [partitionFiles] using this

theorem partition_pending_aux (σ : Cache) (rf : CacheKey → Bool)
    (repoId : Nat) (l : List DiffFile) :
    ∀ a, (l.foldl (partitionStep σ rf repoId) a).2.2
      = a.2.2 ++ l.filter
          (fun f => (getCachedReview σ rf ⟨repoId, f.path, f.contentHash⟩).isNone) := by
  induction l with
  | nil => intro a; simp
  | cons f l ih =>
    intro a
    rw [List.foldl_cons, ih]
    unfold partitionStep
    cases h : getCachedReview σ rf ⟨repoId, f.path, f.contentHash⟩ with
    | none => simp [List.filter_cons, h]
    | some p => cases p <;> simp [List.filter_cons, h]

/-- The pending list is exactly the sub-list of files whose lookup
missed, in the original order. -/
theorem partition_pending (σ : Cache) (rf : CacheKey → Bool) (repoId : Nat)
    (files : List DiffFile) :
    (partitionFiles σ rf repoId files).2.2
      = files.filter
          (fun f => (getCachedReview σ rf ⟨repoId, f.path, f.contentHash⟩).isNone) := by
  have := partition_pending_aux σ rf repoId files (0, [], [])
  simpa [partitionFiles] using this

theorem partition_allmiss_aux (σ : Cache) (rf : CacheKey → Bool)
    (repoId : Nat) (l : List DiffFile)
    (h : ∀ f ∈ l, getCachedReview σ rf ⟨repoId, f.path, f.contentHash⟩ = none) :
    ∀ a, l.foldl (partitionStep σ rf repoId) a = (a.1, a.2.1, a.2.2 ++ l) := by
  induction l with
  | nil => intro a; simp
  | cons f l ih =>
    intro a
    rw [List.foldl_cons]
    have hf := h f (List.mem_cons_self f l)
    have step : partitionStep σ rf repoId a f = (a.1, a.2.1, a.2.2 ++ [f]) := by
      unfold partitionStep
      rw [hf]
    rw [step, ih (fun g hg => h g (List.mem_cons_of_mem f hg))]
    simp

/-- Partition over the empty store: nothing hits, every file is pending. -/
theorem partition_empty (rf : CacheKey → Bool) (repoId : Nat)
    (files : List DiffFile) :
    partitionFiles [] rf repoId files = (0, [], files) := by
  have := partition_allmiss_aux [] rf repoId files
    (fun f _ => getCachedReview_nil rf _) (0, [], [])
  simpa [partitionFiles] using this

theorem partition_allhit_aux (σ : Cache) (rf : CacheKey → Bool)
    (repoId : Nat) (pl : DiffFile → List LineComment) (l : List DiffFile)
    (h : ∀ f ∈ l, getCachedReview σ rf ⟨repoId, f.path, f.contentHash⟩
        = some (.jsonComments (pl f))) :
    ∀ a, l.foldl (partitionStep σ rf repoId) a
      = (a.1 + l.length, a.2.1 ++ l.flatMap pl, a.2.2) := by
  induction l with
  | nil => intro a; simp
  | cons f l ih =>
    intro a
    rw [List.foldl_cons]
    have hf := h f (List.mem_cons_self f l)
    have step : partitionStep σ rf repoId a f = (a.1 + 1, a.2.1 ++ pl f, a.2.2) := by
      unfold partitionStep
      rw [hf]
    rw [step, ih (fun g hg => h g (List.mem_cons_of_mem f hg))]
    simp
    omega

/-- Partition when every file hits with a JSON-array payload. -/
theorem partition_allhit (σ : Cache) (rf : CacheKey → Bool) (repoId : Nat)
    (pl : DiffFile → List LineComment) (files : List DiffFile)
    (h : ∀ f ∈ files, getCachedReview σ rf ⟨repoId, f.path, f.contentHash⟩
        = some (.jsonComments (pl f))) :
    partitionFiles σ rf repoId files = (files.length, files.flatMap pl, []) := by
  have := partition_allhit_aux σ rf repoId pl files h (0, [], [])
  simpa [partitionFiles] using this

/-! ### Uniqueness of segmented paths

The scan records fragments in a JavaScript object keyed by path, so the
emitted fragments always carry pairwise-distinct paths. -/

theorem fmInsert_keys_nodup (m : List (String × List String)) (k : String)
    (v : List String) (h : (fmKeys m).Nodup) :
    (fmKeys (fmInsert m k v)).Nodup := by
  unfold fmInsert
  by_cases hpr : k = "__proto__"
  case pos =>
    rw [if_pos hpr]
    exact h
  rw [if_neg hpr]
  by_cases hk : m.any (fun e => e.1 = k)
  · rw [if_pos hk]
    have he : fmKeys (m.map fun e => if e.1 = k then (k, v) else e) = fmKeys m := by
      unfold fmKeys
      rw [List.map_map]
      apply List.map_congr_left
      intro e _
      by_cases hek : e.1 = k
      · simp [hek]
      · simp [hek]
    rw [he]
    exact h
  · rw [if_neg hk]
    have hk' : k ∉ fmKeys m := by
      intro hmem
      apply hk
      rcases List.mem_map.mp hmem with ⟨e, he, hke⟩
      exact List.any_eq_true.mpr ⟨e, he, by simp [hke]⟩
    unfold fmKeys
    rw [List.map_append]
    simp only [List.map_cons, List.map_nil]
    refine List.Nodup.append h (List.nodup_singleton k) ?_
    intro a ha hb
    rw [List.mem_singleton] at hb
    exact hk' (hb ▸ ha)

theorem flushCurrent_keys_nodup (st : ParseState)
    (h : (fmKeys st.fileMap).Nodup) : (fmKeys (flushCurrent st)).Nodup := by
  unfold flushCurrent
  cases st.currentFile with
  | none => exact h
  | some pf =>
    by_cases hl : pf.2.length > 0
    · simpa [hl] using fmInsert_keys_nodup st.fileMap pf.1 pf.2 h
    · simpa [hl] using h

theorem parseStep_keys_nodup (st : ParseState) (line : String)
    (h : (fmKeys st.fileMap).Nodup) :
    (fmKeys (parseStep st line).fileMap).Nodup := by
  unfold parseStep
  by_cases hb : isBoundary line
  · simpa [hb] using flushCurrent_keys_nodup st h
  · cases hc : st.currentFile <;> simpa [hb, hc] using h

theorem foldl_parseStep_keys_nodup (lines : List String) :
    ∀ st : ParseState, (fmKeys st.fileMap).Nodup →
      (fmKeys ((lines.foldl parseStep st).fileMap)).Nodup := by
  induction lines with
  | nil => intro st h; exact h
  | cons l lines ih =>
    intro st h
    rw [List.foldl_cons]
    exact ih _ (parseStep_keys_nodup st l h)

/-- The numeric-first enumeration is a permutation of the recorded
entries. -/
theorem insertByVal_perm (e : String × List String)
    (l : List (String × List String)) :
    List.Perm (insertByVal e l) (e :: l) := by
  induction l with
  | nil => exact List.Perm.refl _
  | cons f rest ih =>
    unfold insertByVal
    by_cases h : keyVal e < keyVal f
    · rw [if_pos h]
    · rw [if_neg h]
      exact List.Perm.trans (List.Perm.cons f ih) (List.Perm.swap e f rest)

theorem sortByVal_perm (l : List (String × List String)) :
    List.Perm (sortByVal l) l := by
  induction l with
  | nil => exact List.Perm.refl _
  | cons e rest ih =>
    unfold sortByVal
    exact List.Perm.trans (insertByVal_perm e (sortByVal rest))
      (List.Perm.cons e ih)

theorem fmEntries_perm (m : List (String × List String)) :
    List.Perm (fmEntries m) m := by
  unfold fmEntries
  exact List.Perm.trans
    (List.Perm.append_right _ (sortByVal_perm _))
    (List.filter_append_perm _ m)

/-- Fragments emitted by the segmenter have pairwise-distinct paths. -/
theorem parse_paths_nodup (hash : String → String) (d : String) :
    ((parseAndHashDiff hash d).map fun f => f.path).Nodup := by
  have h1 : (fmKeys (flushCurrent ((splitLines d).foldl parseStep
      { currentFile := none, fileMap := [] }))).Nodup :=
    flushCurrent_keys_nodup _
      (foldl_parseStep_keys_nodup _ _ (by simp [fmKeys]))
  have hperm : List.Perm
      (fmKeys (fmEntries (flushCurrent ((splitLines d).foldl parseStep
        { currentFile := none, fileMap := [] }))))
      (fmKeys (flushCurrent ((splitLines d).foldl parseStep
        { currentFile := none, fileMap := [] }))) :=
    List.Perm.map _ (fmEntries_perm _)
  have h2 := (List.Perm.nodup_iff hperm).mpr h1
  simpa [parseAndHashDiff, fmKeys, List.map_map, Function.comp] using h2

/-- The pending list inherits pairwise-distinct paths. -/
theorem pending_paths_nodup (hash : String → String) (d : String)
    (σ : Cache) (rf : CacheKey → Bool) (repoId : Nat) :
    (((partitionFiles σ rf repoId (parseAndHashDiff hash d)).2.2).map
      fun f => f.path).Nodup := by
  rw [partition_pending]
  exact List.Nodup.sublist
    (List.Sublist.map _ (List.filter_sublist _)) (parse_paths_nodup hash d)

/-! ### Write-back lemmas -/

/-- A write-back iteration never touches the entry of a key whose path
differs from the comment's `file` field. -/
theorem writeBackStep_other (wf : CacheKey → Bool) (repoId : Nat)
    (pending : List DiffFile) (cs : List LineComment) (σ : Cache)
    (c : LineComment) (k : CacheKey) (hck : c.file ≠ k.path) :
    cacheGet (writeBackStep wf repoId pending cs σ c) k = cacheGet σ k := by
  unfold writeBackStep
  cases hf : pending.find? (fun f => f.path = c.file) with
  | none => rfl
  | some f =>
    have hfp : f.path = c.file := by
      have := List.find?_some hf
      simpa using this
    have hk : k ≠ (⟨repoId, f.path, f.contentHash⟩ : CacheKey) := by
      intro he
      apply hck
      rw [he]
      exact hfp.symm
    by_cases hw : wf ⟨repoId, f.path, f.contentHash⟩
    · simp [cacheReview, hw]
    · simp [cacheReview, hw, cacheGet_upsert_ne _ _ _ _ hk]

theorem writeBack_go (wf : CacheKey → Bool) (hwf : ∀ k, wf k = false)
    (repoId : Nat) (pending : List DiffFile) (cs : List LineComment)
    (f : DiffFile) (hmem : f ∈ pending)
    (hnd : (pending.map fun g => g.path).Nodup) :
    ∀ (l : List LineComment) (σ : Cache),
      (cacheGet σ ⟨repoId, f.path, f.contentHash⟩
          = some (.jsonComments (cs.filter fun c2 => c2.file = f.path))
        ∨ ∃ c ∈ l, c.file = f.path) →
      cacheGet (l.foldl (writeBackStep wf repoId pending cs) σ)
          ⟨repoId, f.path, f.contentHash⟩
        = some (.jsonComments (cs.filter fun c2 => c2.file = f.path)) := by
  intro l
  induction l with
  | nil =>
    intro σ h
    rcases h with h | ⟨c, hc, _⟩
    · exact h
    · cases hc
  | cons c l ih =>
    intro σ h
    rw [List.foldl_cons]
    by_cases hcf : c.file = f.path
    · have hfind : pending.find? (fun g => g.path = c.file) = some f := by
        rw [hcf]
        exact find?_path_eq pending f hmem hnd
      have hstep : writeBackStep wf repoId pending cs σ c
          = cacheUpsert σ ⟨repoId, f.path, f.contentHash⟩
              (.jsonComments (cs.filter fun c2 => c2.file = c.file)) := by
        unfold writeBackStep
        rw [hfind]
        simp [cacheReview, hwf]
      apply ih
      left
      rw [hstep, hcf]
      exact cacheGet_upsert_self σ _ _
    · have hpres : cacheGet (writeBackStep wf repoId pending cs σ c)
          ⟨repoId, f.path, f.contentHash⟩
          = cacheGet σ ⟨repoId, f.path, f.contentHash⟩ :=
        writeBackStep_other wf repoId pending cs σ c _ (by simpa using hcf)
      apply ih
      rcases h with h | ⟨c', hc', he'⟩
      · left
        rw [hpres]
        exact h
      · rcases List.mem_cons.mp hc' with rfl | hc'l
        · exact absurd he' hcf
        · exact Or.inr ⟨c', hc'l, he'⟩

/-- After the write-back loop, a pending file with at least one
attributed comment holds exactly the comments attributed to it. -/
theorem writeBack_get (wf : CacheKey → Bool) (hwf : ∀ k, wf k = false)
    (repoId : Nat) (pending : List DiffFile) (cs : List LineComment)
    (f : DiffFile) (hmem : f ∈ pending)
    (hnd : (pending.map fun g => g.path).Nodup)
    (hc : ∃ c ∈ cs, c.file = f.path) (σ : Cache) :
    cacheGet (writeBack σ wf repoId pending cs)
        ⟨repoId, f.path, f.contentHash⟩
      = some (.jsonComments (cs.filter fun c2 => c2.file = f.path)) :=
  writeBack_go wf hwf repoId pending cs f hmem hnd cs σ (Or.inr hc)

/-- The write-back loop leaves every key whose path no returned comment
mentions untouched. -/
theorem writeBack_get_other (wf : CacheKey → Bool) (repoId : Nat)
    (pending : List DiffFile) (cs : List LineComment) (k : CacheKey)
    (hc : ∀ c ∈ cs, c.file ≠ k.path) (σ : Cache) :
    cacheGet (writeBack σ wf repoId pending cs) k = cacheGet σ k := by
  unfold writeBack
  suffices h : ∀ (l : List LineComment) (σ : Cache), (∀ c ∈ l, c.file ≠ k.path) →
      cacheGet (l.foldl (writeBackStep wf repoId pending cs) σ) k = cacheGet σ k by
    exact h cs σ hc
  intro l
  induction l with
  | nil => intro σ _; rfl
  | cons c l ih =>
    intro σ hl
    rw [List.foldl_cons, ih _ (fun c' h' => hl c' (List.mem_cons_of_mem c h')),
      writeBackStep_other wf repoId pending cs σ c k
        (hl c (List.mem_cons_self c l))]

/-! ### Stage lemmas -/

theorem aiStage_empty (ja : Nat → JsonAttempt) (ta : Nat → TextAttempt)
    (wf : CacheKey → Bool) (repoId : Nat) (σ : Cache)
    (acc : List LineComment) :
    aiStage ja ta wf repoId σ acc []
      = { cache := σ, comments := acc, fallback := none, jsonBatches := [],
          textBatches := [], thrown := none } := by
  simp [aiStage]

theorem aiStage_json_ok (ja : Nat → JsonAttempt) (ta : Nat → TextAttempt)
    (wf : CacheKey → Bool) (repoId : Nat) (σ : Cache)
    (acc : List LineComment) (pending : List DiffFile)
    (cs : List LineComment) (hp : pending ≠ [])
    (hok : (getAiReviewAsJson ja).result = .ok cs) :
    aiStage ja ta wf repoId σ acc pending
      = { cache := writeBack σ wf repoId pending cs,
          comments := acc ++ cs, fallback := none,
          jsonBatches := [joinSep "\n" (pending.map fun f => f.fullDiff)],
          textBatches := [], thrown := none } := by
  have hl : pending.length > 0 := List.length_pos.mpr hp
  simp only [aiStage, hl, if_pos, hok]

theorem aiStage_json_err_text_ok (ja : Nat → JsonAttempt)
    (ta : Nat → TextAttempt) (wf : CacheKey → Bool) (repoId : Nat)
    (σ : Cache) (acc : List LineComment) (pending : List DiffFile)
    (e : JsError) (fb : String) (hp : pending ≠ [])
    (herr : (getAiReviewAsJson ja).result = .error e)
    (hok : (getAiReviewAsText ta).result = .ok fb) :
    aiStage ja ta wf repoId σ acc pending
      = { cache := σ, comments := acc, fallback := some fb,
          jsonBatches := [joinSep "\n" (pending.map fun f => f.fullDiff)],
          textBatches := [joinSep "\n" (pending.map fun f => f.fullDiff)],
          thrown := none } := by
  have hl : pending.length > 0 := List.length_pos.mpr hp
  simp only [aiStage, hl, if_pos, herr, hok]

theorem aiStage_json_err_text_err (ja : Nat → JsonAttempt)
    (ta : Nat → TextAttempt) (wf : CacheKey → Bool) (repoId : Nat)
    (σ : Cache) (acc : List LineComment) (pending : List DiffFile)
    (e e' : JsError) (hp : pending ≠ [])
    (herr : (getAiReviewAsJson ja).result = .error e)
    (herr' : (getAiReviewAsText ta).result = .error e') :
    aiStage ja ta wf repoId σ acc pending
      = { cache := σ, comments := acc, fallback := none,
          jsonBatches := [joinSep "\n" (pending.map fun f => f.fullDiff)],
          textBatches := [joinSep "\n" (pending.map fun f => f.fullDiff)],
          thrown := some (errMessage e') } := by
  have hl : pending.length > 0 := List.length_pos.mpr hp
  simp only [aiStage, hl, if_pos, herr, herr']

/-- The posting stage passes the cache, the comment accumulator, the
fallback text, the call trace and the counters through unchanged. -/
theorem postStage_fields (io : IoEnv) (ft fc : Nat) (s : AiStageOut) :
    (postStage io ft fc s).cache = s.cache ∧
    (postStage io ft fc s).comments = s.comments ∧
    (postStage io ft fc s).fallback = s.fallback ∧
    (postStage io ft fc s).jsonBatches = s.jsonBatches ∧
    (postStage io ft fc s).textBatches = s.textBatches ∧
    (postStage io ft fc s).filesTotalCount = ft ∧
    (postStage io ft fc s).fileCachedCount = fc := by
  refine ⟨rfl, rfl, rfl, rfl, rfl, rfl, rfl⟩

theorem postStage_cache (io : IoEnv) (ft fc : Nat) (s : AiStageOut) :
    (postStage io ft fc s).cache = s.cache := rfl

theorem postStage_comments (io : IoEnv) (ft fc : Nat) (s : AiStageOut) :
    (postStage io ft fc s).comments = s.comments := rfl

theorem postStage_fallback (io : IoEnv) (ft fc : Nat) (s : AiStageOut) :
    (postStage io ft fc s).fallback = s.fallback := rfl

theorem postStage_jsonBatches (io : IoEnv) (ft fc : Nat) (s : AiStageOut) :
    (postStage io ft fc s).jsonBatches = s.jsonBatches := rfl

theorem postStage_textBatches (io : IoEnv) (ft fc : Nat) (s : AiStageOut) :
    (postStage io ft fc s).textBatches = s.textBatches := rfl

theorem postStage_filesTotal (io : IoEnv) (ft fc : Nat) (s : AiStageOut) :
    (postStage io ft fc s).filesTotalCount = ft := rfl

theorem postStage_fileCached (io : IoEnv) (ft fc : Nat) (s : AiStageOut) :
    (postStage io ft fc s).fileCachedCount = fc := rfl

/-- The exception escaping the posting stage and the line-comment counter
depend only on the collaborator outcomes and the stage's comments,
fallback and thrown fields. -/
theorem postStage_ctrl_congr (io io' : IoEnv) (ft fc ft' fc' : Nat)
    (s s' : AiStageOut)
    (ht : io.token = io'.token) (hp : io.postOk = io'.postOk)
    (hs : io.postSummary = io'.postSummary)
    (hf : io.postFallback = io'.postFallback)
    (hc : s.comments = s'.comments) (hfb : s.fallback = s'.fallback)
    (hth : s.thrown = s'.thrown) :
    (postStage io ft fc s).thrown = (postStage io' ft' fc' s').thrown ∧
    (postStage io ft fc s).lineCommentCount
      = (postStage io' ft' fc' s').lineCommentCount := by
  unfold postStage
  rw [hth, ht, hc, hfb, hs, hf, hp]
  exact ⟨rfl, rfl⟩

/-! ### Retry-loop characterization -/

/-- Full behaviour of the shared Gemini retry loop: between 1 and 3
attempts run; every attempt before the last failed with a retryable
error and was followed by the exponential backoff delay `2^k * 1000` ms;
the propagated result is the last attempt's outcome, and an error is
propagated only when it is non-retryable or the attempt ceiling was
reached. -/
theorem geminiRetry_spec {B : Type} (run : Nat → Except JsError B) :
    1 ≤ (geminiRetry run).attemptsMade ∧ (geminiRetry run).attemptsMade ≤ 3 ∧
    (geminiRetry run).delays
      = (List.range ((geminiRetry run).attemptsMade - 1)).map
          (fun k => 2 ^ k * 1000) ∧
    (∀ k, k + 1 < (geminiRetry run).attemptsMade →
      ∃ e, run k = .error e ∧ geminiRetryable e = true) ∧
    (∀ v, (geminiRetry run).result = .ok v →
      run ((geminiRetry run).attemptsMade - 1) = .ok v) ∧
    (∀ e, (geminiRetry run).result = .error e →
      run ((geminiRetry run).attemptsMade - 1) = .error e ∧
        (geminiRetryable e = false ∨ (geminiRetry run).attemptsMade = 3)) := by
  cases h0 : run 0 with
  | ok v =>
    simp [geminiRetry, retryAux, h0]
  | error e0 =>
    by_cases r0 : geminiRetryable e0
    · cases h1 : run 1 with
      | ok v =>
        simp [geminiRetry, retryAux, h0, r0, h1, List.range_succ]
        intro k hk
        have hk0 : k = 0 := by omega
        subst hk0
        exact ⟨e0, h0, r0⟩
      | error e1 =>
        by_cases r1 : geminiRetryable e1
        · cases h2 : run 2 with
          | ok v =>
            simp [geminiRetry, retryAux, h0, r0, h1, r1, h2, List.range_succ]
            intro k hk
            rcases (by omega : k = 0 ∨ k = 1) with rfl | rfl
            · exact ⟨e0, h0, r0⟩
            · exact ⟨e1, h1, r1⟩
          | error e2 =>
            simp [geminiRetry, retryAux, h0, r0, h1, r1, h2, List.range_succ]
            intro k hk
            rcases (by omega : k = 0 ∨ k = 1) with rfl | rfl
            · exact ⟨e0, h0, r0⟩
            · exact ⟨e1, h1, r1⟩
        · simp [geminiRetry, retryAux, h0, r0, h1, r1, List.range_succ]
          intro k hk
          have hk0 : k = 0 := by omega
          subst hk0
          exact ⟨e0, h0, r0⟩
    · simp [geminiRetry, retryAux, h0, r0]

/-! ### Splitting and joining lines -/

theorem mk_append (a b : List Char) :
    String.mk a ++ String.mk b = String.mk (a ++ b) := rfl

theorem splitLinesAux_ne_nil (l : List Char) :
    ∀ acc, splitLinesAux l acc ≠ [] := by
  induction l with
  | nil => intro acc; simp [splitLinesAux]
  | cons c cs ih =>
    intro acc
    unfold splitLinesAux
    by_cases h : c = '\n'
    · simp [h]
    · simpa [h] using ih (c :: acc)

theorem splitLines_ne_nil (s : String) : splitLines s ≠ [] :=
  splitLinesAux_ne_nil s.data []

theorem joinSep_cons (sep s : String) (l : List String) (h : l ≠ []) :
    joinSep sep (s :: l) = s ++ sep ++ joinSep sep l := by
  cases l with
  | nil => cases h rfl
  | cons t l => rfl

theorem joinSep_splitLinesAux (l : List Char) :
    ∀ acc, joinSep "\n" (splitLinesAux l acc)
      = String.mk acc.reverse ++ String.mk l := by
  induction l with
  | nil =>
    intro acc
    simp [splitLinesAux, joinSep, mk_append]
  | cons c cs ih =>
    intro acc
    unfold splitLinesAux
    by_cases h : c = '\n'
    · subst h
      rw [if_pos rfl,
        joinSep_cons _ _ _ (splitLinesAux_ne_nil cs []), ih []]
      simp only [List.reverse_nil, mk_append]
      show String.mk acc.reverse ++ String.mk ['\n'] ++ String.mk cs = _
      rw [mk_append, mk_append]
      simp
    · rw [if_neg h, ih (c :: acc)]
      rw [mk_append, mk_append]
      simp

/-- `JavaScript`'s `lines.join('\n')` is a left inverse of
`split('\n')`. -/
theorem joinSep_splitLines (s : String) :
    joinSep "\n" (splitLines s) = s := by
  have h := joinSep_splitLinesAux s.data []
  simpa [splitLines, mk_append] using h

theorem joinSep_append (sep : String) (xs ys : List String)
    (hx : xs ≠ []) (hy : ys ≠ []) :
    joinSep sep (xs ++ ys) = joinSep sep xs ++ sep ++ joinSep sep ys := by
  induction xs with
  | nil => cases hx rfl
  | cons x xs ih =>
    by_cases hxs : xs = []
    · subst hxs
      rw [List.singleton_append, joinSep_cons sep x ys hy]
      rfl
    · rw [List.cons_append,
        joinSep_cons sep x (xs ++ ys) (by simp [hxs]),
        joinSep_cons sep x xs hxs, ih hxs]
      simp [String.append_assoc]

theorem flatten_ne_nil (ls : List (List String)) (hne : ls ≠ [])
    (h : ∀ b ∈ ls, b ≠ []) : ls.flatten ≠ [] := by
  cases ls with
  | nil => cases hne rfl
  | cons b rest =>
    have hb : b ≠ [] := h b (List.mem_cons_self b rest)
    simp [List.flatten_cons]
    intro he
    cases hb he

/-- Joining per-block joined texts equals joining the flattened lines. -/
theorem joinSep_flat (ls : List (List String)) (h : ∀ b ∈ ls, b ≠ []) :
    joinSep "\n" (ls.map (joinSep "\n")) = joinSep "\n" ls.flatten := by
  induction ls with
  | nil => rfl
  | cons b rest ih =>
    by_cases hrne : rest = []
    · subst hrne
      simp [joinSep]
    · have hmem : ∀ x ∈ rest, x ≠ [] :=
        fun x hx => h x (List.mem_cons_of_mem b hx)
      rw [List.map_cons, List.flatten_cons,
        joinSep_cons _ _ _ (by simp [hrne]),
        ih hmem,
        joinSep_append _ _ _ (h b (List.mem_cons_self b rest))
          (flatten_ne_nil rest hrne hmem)]

/-! ### Scanning a diff made of simple `--- a/` blocks -/

theorem parseAndHashDiff_eq_map (hash : String → String) (d : String) :
    parseAndHashDiff hash d
      = (fmEntries (flushCurrent ((splitLines d).foldl parseStep
          { currentFile := none, fileMap := [] }))).map (mkDiffFile hash) := rfl

theorem simpleBlockB_ne_nil {b : String × List String}
    (hb : simpleBlockB b = true) : b.2 ≠ [] := by
  intro h
  rw [simpleBlockB, h] at hb
  cases hb

/-- Scanning non-boundary lines only extends the open fragment. -/
theorem parse_nonboundary (ls : List String)
    (h : ∀ l ∈ ls, isBoundary l = false) :
    ∀ (p : String) (acc : List String) (m : List (String × List String)),
      ls.foldl parseStep ⟨some (p, acc), m⟩ = ⟨some (p, acc ++ ls), m⟩ := by
  induction ls with
  | nil => intro p acc m; simp
  | cons l ls ih =>
    intro p acc m
    have hb := h l (List.mem_cons_self l ls)
    have hstep : parseStep ⟨some (p, acc), m⟩ l = ⟨some (p, acc ++ [l]), m⟩ := by
      simp [parseStep, hb]
    rw [List.foldl_cons, hstep,
      ih (fun x hx => h x (List.mem_cons_of_mem l hx))]
    simp

/-- Scanning one simple block from an open fragment flushes the open
fragment and leaves the block as the new open fragment. -/
theorem parse_block (bp : String) (bl : List String)
    (hb : simpleBlockB (bp, bl) = true) :
    ∀ (p : String) (acc : List String) (m : List (String × List String)),
      acc ≠ [] →
      bl.foldl parseStep ⟨some (p, acc), m⟩
        = ⟨some (bp, bl), fmInsert m p acc⟩ := by
  intro p acc m hacc
  cases bl with
  | nil => cases simpleBlockB_ne_nil hb rfl
  | cons hdr rest =>
    simp only [simpleBlockB, Bool.and_eq_true, Bool.not_eq_true',
      beq_iff_eq, List.all_eq_true] at hb
    obtain ⟨⟨⟨h1, h2⟩, h3⟩, h4⟩ := hb
    have hbd : isBoundary hdr = true := by simp [isBoundary, h1]
    have hlen : 0 < acc.length := List.length_pos.mpr hacc
    have hstep : parseStep ⟨some (p, acc), m⟩ hdr
        = ⟨some (bp, [hdr]), fmInsert m p acc⟩ := by
      simp [parseStep, hbd, h2, h3, flushCurrent, hlen]
    have h4' : ∀ l ∈ rest, isBoundary l = false := by
      intro l hl
      simpa using h4 l hl
    rw [List.foldl_cons, hstep, parse_nonboundary rest h4' bp [hdr] _]
    simp

/-- Scanning the first simple block from the initial state. -/
theorem parse_block_first (bp : String) (bl : List String)
    (hb : simpleBlockB (bp, bl) = true) :
    bl.foldl parseStep ⟨none, []⟩ = ⟨some (bp, bl), []⟩ := by
  cases bl with
  | nil => cases simpleBlockB_ne_nil hb rfl
  | cons hdr rest =>
    simp only [simpleBlockB, Bool.and_eq_true, Bool.not_eq_true',
      beq_iff_eq, List.all_eq_true] at hb
    obtain ⟨⟨⟨h1, h2⟩, h3⟩, h4⟩ := hb
    have hbd : isBoundary hdr = true := by simp [isBoundary, h1]
    have hstep : parseStep ⟨none, []⟩ hdr = ⟨some (bp, [hdr]), []⟩ := by
      simp [parseStep, hbd, h2, h3, flushCurrent]
    have h4' : ∀ l ∈ rest, isBoundary l = false := by
      intro l hl
      simpa using h4 l hl
    rw [List.foldl_cons, hstep, parse_nonboundary rest h4' bp [hdr] _]
    simp

theorem parse_blocks_aux (blocks : List (String × List String))
    (hb : ∀ b ∈ blocks, simpleBlockB b = true) :
    ∀ (p : String) (acc : List String) (m : List (String × List String)),
      acc ≠ [] →
      flushCurrent
          ((blocks.flatMap fun b => b.2).foldl parseStep ⟨some (p, acc), m⟩)
        = blocks.foldl (fun m' b => fmInsert m' b.1 b.2) (fmInsert m p acc) := by
  induction blocks with
  | nil =>
    intro p acc m hacc
    have hlen : 0 < acc.length := List.length_pos.mpr hacc
    simp [flushCurrent, hlen]
  | cons b rest ih =>
    intro p acc m hacc
    have hbb : simpleBlockB (b.1, b.2) = true := by
      simpa using hb b (List.mem_cons_self b rest)
    have hbne : b.2 ≠ [] := simpleBlockB_ne_nil (by simpa using hbb)
    rw [List.flatMap_cons, List.foldl_append,
      parse_block b.1 b.2 hbb p acc m hacc,
      ih (fun x hx => hb x (List.mem_cons_of_mem b hx)) b.1 b.2 _ hbne,
      List.foldl_cons]

/-- Scanning a diff that is a sequence of simple blocks records exactly
those blocks, in order. -/
theorem parse_simple_fileMap (blocks : List (String × List String))
    (hb : ∀ b ∈ blocks, simpleBlockB b = true) (hne : blocks ≠ []) :
    flushCurrent ((blocks.flatMap fun b => b.2).foldl parseStep ⟨none, []⟩)
      = blocks.foldl (fun m' b => fmInsert m' b.1 b.2) [] := by
  cases blocks with
  | nil => cases hne rfl
  | cons b rest =>
    have hbb : simpleBlockB (b.1, b.2) = true := by
      simpa using hb b (List.mem_cons_self b rest)
    have hbne : b.2 ≠ [] := simpleBlockB_ne_nil (by simpa using hbb)
    rw [List.flatMap_cons, List.foldl_append,
      parse_block_first b.1 b.2 hbb,
      parse_blocks_aux rest (fun x hx => hb x (List.mem_cons_of_mem b hx))
        b.1 b.2 [] hbne,
      List.foldl_cons]

/-- Inserting a chain of fresh, pairwise-distinct, non-`__proto__` keys
appends them. -/
theorem foldl_fmInsert_fresh (blocks : List (String × List String)) :
    ∀ m : List (String × List String),
      (blocks.map fun b => b.1).Nodup →
      (∀ b ∈ blocks, b.1 ≠ "__proto__") →
      (∀ b ∈ blocks, ∀ e ∈ m, e.1 ≠ b.1) →
      blocks.foldl (fun m' b => fmInsert m' b.1 b.2) m = m ++ blocks := by
  induction blocks with
  | nil => intro m _ _ _; simp
  | cons b rest ih =>
    intro m hnd hproto hfresh
    have hnd2 : (b.1 :: rest.map fun x => x.1).Nodup := by simpa using hnd
    have hnd' := List.nodup_cons.mp hnd2
    have h1 : fmInsert m b.1 b.2 = m ++ [(b.1, b.2)] := by
      unfold fmInsert
      rw [if_neg (hproto b (List.mem_cons_self b rest)), if_neg]
      intro hany
      rcases List.any_eq_true.mp hany with ⟨e, he, heq⟩
      exact hfresh b (List.mem_cons_self b rest) e he (by simpa using heq)
    have hfresh' : ∀ b' ∈ rest, ∀ e ∈ m ++ [(b.1, b.2)], e.1 ≠ b'.1 := by
      intro b' hb' e he
      rcases List.mem_append.mp he with hm | hs
      · exact hfresh b' (List.mem_cons_of_mem b hb') e hm
      · rw [List.mem_singleton] at hs
        subst hs
        intro heq
        have heq' : b.1 = b'.1 := heq
        apply hnd'.1
        rw [heq']
        exact List.mem_map_of_mem (fun x => x.1) hb'
    rw [List.foldl_cons, h1, ih (m ++ [(b.1, b.2)]) hnd'.2
      (fun b' hb' => hproto b' (List.mem_cons_of_mem b hb')) hfresh']
    simp

/-! ### Orchestrator decomposition helpers -/

theorem processDiff_eq (hash : String → String) (ja : Nat → JsonAttempt)
    (ta : Nat → TextAttempt) (io : IoEnv) (repoId : Nat) (σ : Cache)
    (diff : String) :
    processDiff hash ja ta io repoId σ diff
      = postStage io (parseAndHashDiff hash diff).length
          (partitionFiles σ io.readFault repoId (parseAndHashDiff hash diff)).1
          (aiStage ja ta io.writeFault repoId σ
            (partitionFiles σ io.readFault repoId (parseAndHashDiff hash diff)).2.1
            (partitionFiles σ io.readFault repoId (parseAndHashDiff hash diff)).2.2) := rfl

/-- Whenever anything is pending, the structured client is invoked
exactly once with the whole batch, and the free-text client is invoked
either not at all or once with the same whole batch. -/
theorem aiStage_batches_of_ne (ja : Nat → JsonAttempt)
    (ta : Nat → TextAttempt) (wf : CacheKey → Bool) (repoId : Nat)
    (σ : Cache) (acc : List LineComment) (pending : List DiffFile)
    (hp : pending ≠ []) :
    (aiStage ja ta wf repoId σ acc pending).jsonBatches
      = [joinSep "\n" (pending.map fun f => f.fullDiff)] ∧
    ((aiStage ja ta wf repoId σ acc pending).textBatches = [] ∨
      (aiStage ja ta wf repoId σ acc pending).textBatches
        = [joinSep "\n" (pending.map fun f => f.fullDiff)]) := by
  cases hj : (getAiReviewAsJson ja).result with
  | ok cs =>
    rw [aiStage_json_ok ja ta wf repoId σ acc pending cs hp hj]
    exact ⟨rfl, Or.inl rfl⟩
  | error e =>
    cases ht : (getAiReviewAsText ta).result with
    | ok fb =>
      rw [aiStage_json_err_text_ok ja ta wf repoId σ acc pending e fb hp hj ht]
      exact ⟨rfl, Or.inr rfl⟩
    | error e' =>
      rw [aiStage_json_err_text_err ja ta wf repoId σ acc pending e e' hp hj ht]
      exact ⟨rfl, Or.inr rfl⟩

/-! ### Concrete fixtures for closed-form runs -/

/-! ### C2 — partition completeness and single-batch inclusion -/

/-- **C2.** For every diff and every store/fault state — hence every
possible pre-seeded subset of fragments — after the partition step
`fileCachedCount + |filesToReview| = filesTotalCount`; and whenever the
pending list is non-empty, the single AI request batch is exactly the
newline join of each pending file's raw text, each included once, in
order. -/
theorem claim_C2 (hash : String → String) (jsonAtts : Nat → JsonAttempt)
    (textAtts : Nat → TextAttempt) (io : IoEnv) (repoId : Nat) (σ : Cache)
    (diff : String) :
    (partitionFiles σ io.readFault repoId (parseAndHashDiff hash diff)).1
        + (partitionFiles σ io.readFault repoId
            (parseAndHashDiff hash diff)).2.2.length
      = (parseAndHashDiff hash diff).length ∧
    ((partitionFiles σ io.readFault repoId
        (parseAndHashDiff hash diff)).2.2 ≠ [] →
      (processDiff hash jsonAtts textAtts io repoId σ diff).jsonBatches
        = [joinSep "\n"
            (((partitionFiles σ io.readFault repoId
                (parseAndHashDiff hash diff)).2.2).map fun f => f.fullDiff)]) := by
  constructor
  · exact partition_count σ io.readFault repoId (parseAndHashDiff hash diff)
  · intro hne
    rw [processDiff_eq]
    rw [(postStage_fields io _ _ _).2.2.2.1]
    exact (aiStage_batches_of_ne jsonAtts textAtts io.writeFault repoId σ _ _ hne).1

/-- Witness for C2: one of the two files of `diffTwo` pre-seeded. -/
theorem claim_C2_witness :
    ((partitionFiles σSeedA ioAllOk.readFault 0
        (parseAndHashDiff hashId diffTwo)).1 = 1 ∧
     (partitionFiles σSeedA ioAllOk.readFault 0
        (parseAndHashDiff hashId diffTwo)).2.2.length = 1) ∧
    (processDiff hashId jaOneA taPlain ioAllOk 0 σSeedA diffTwo).jsonBatches
      = [joinSep "\n"
          (((partitionFiles σSeedA ioAllOk.readFault 0
              (parseAndHashDiff hashId diffTwo)).2.2).map fun f => f.fullDiff)] :=
  ⟨by decide,
   (claim_C2 hashId jaOneA taPlain ioAllOk 0 σSeedA diffTwo).2 (by decide)⟩

/-! ### C3 — no redundant AI calls; one batched call -/

/-- **C3.** If every fragment is a cache hit, the AI Review Client is
invoked zero times (neither the structured nor the free-text endpoint);
if the pending list is non-empty, the structured endpoint is invoked
exactly once with the whole pending batch — the in-order concatenation
of the pending fragments' raw texts — and the free-text endpoint at most
once, with the identical whole batch, never per-file. -/
theorem claim_C3 (hash : String → String) (jsonAtts : Nat → JsonAttempt)
    (textAtts : Nat → TextAttempt) (io : IoEnv) (repoId : Nat) (σ : Cache)
    (diff : String) :
    ((∀ f ∈ parseAndHashDiff hash diff,
        (getCachedReview σ io.readFault
          ⟨repoId, f.path, f.contentHash⟩).isSome) →
      (processDiff hash jsonAtts textAtts io repoId σ diff).jsonBatches = [] ∧
      (processDiff hash jsonAtts textAtts io repoId σ diff).textBatches = []) ∧
    ((partitionFiles σ io.readFault repoId
        (parseAndHashDiff hash diff)).2.2 ≠ [] →
      (processDiff hash jsonAtts textAtts io repoId σ diff).jsonBatches
        = [joinSep "\n"
            (((partitionFiles σ io.readFault repoId
                (parseAndHashDiff hash diff)).2.2).map fun f => f.fullDiff)] ∧
      ((processDiff hash jsonAtts textAtts io repoId σ diff).textBatches = [] ∨
       (processDiff hash jsonAtts textAtts io repoId σ diff).textBatches
        = [joinSep "\n"
            (((partitionFiles σ io.readFault repoId
                (parseAndHashDiff hash diff)).2.2).map fun f => f.fullDiff)])) := by
  constructor
  · intro hall
    have hpend : (partitionFiles σ io.readFault repoId
        (parseAndHashDiff hash diff)).2.2 = [] := by
      rw [partition_pending, List.filter_eq_nil_iff]
      intro f hf hN
      rw [Option.isNone_iff_eq_none] at hN
      have hs := hall f hf
      rw [hN] at hs
      simp at hs
    constructor
    · rw [processDiff_eq, (postStage_fields io _ _ _).2.2.2.1, hpend,
        aiStage_empty]
    · rw [processDiff_eq, (postStage_fields io _ _ _).2.2.2.2.1, hpend,
        aiStage_empty]
  · intro hne
    rw [processDiff_eq]
    constructor
    · rw [(postStage_fields io _ _ _).2.2.2.1]
      exact (aiStage_batches_of_ne jsonAtts textAtts io.writeFault repoId σ _ _ hne).1
    · rw [(postStage_fields io _ _ _).2.2.2.2.1]
      exact (aiStage_batches_of_ne jsonAtts textAtts io.writeFault repoId σ _ _ hne).2

/-- Witness for C3: with both files of `diffTwo` pre-seeded no endpoint
is invoked; with an empty store the one batched call carries both
fragments. -/
theorem claim_C3_witness :
    ((processDiff hashId jaOneA taPlain ioAllOk 0 σSeedBoth diffTwo).jsonBatches
        = [] ∧
     (processDiff hashId jaOneA taPlain ioAllOk 0 σSeedBoth diffTwo).textBatches
        = []) ∧
    ((processDiff hashId jaOneA taPlain ioAllOk 0 [] diffTwo).jsonBatches
        = [joinSep "\n"
            (((partitionFiles [] ioAllOk.readFault 0
                (parseAndHashDiff hashId diffTwo)).2.2).map fun f => f.fullDiff)] ∧
     ((processDiff hashId jaOneA taPlain ioAllOk 0 [] diffTwo).textBatches = [] ∨
      (processDiff hashId jaOneA taPlain ioAllOk 0 [] diffTwo).textBatches
        = [joinSep "\n"
            (((partitionFiles [] ioAllOk.readFault 0
                (parseAndHashDiff hashId diffTwo)).2.2).map fun f => f.fullDiff)])) :=
  ⟨(claim_C3 hashId jaOneA taPlain ioAllOk 0 σSeedBoth diffTwo).1 (by decide),
   (claim_C3 hashId jaOneA taPlain ioAllOk 0 [] diffTwo).2 (by decide)⟩

/-! ### C4 — fragment boundaries and round-trip -/

/-- **C4 (counterexample).** On a well-formed three-file git-style diff
the segmenter does produce exactly 3 fragments, but the `--- a/` line of
each file re-opens that file's block and the flush overwrites the block
holding the `diff --git` and `index` lines: the concatenated fragment
texts do not reconstruct the diff, and the file-introducing
`diff --git a/a.py b/a.py` header line appears in no fragment. -/
theorem claim_C4_counterexample :
    (parseAndHashDiff hashId diffGit3).length = 3 ∧
    joinSep "\n" ((parseAndHashDiff hashId diffGit3).map fun f => f.fullDiff)
      ≠ diffGit3 ∧
    ∀ f ∈ parseAndHashDiff hashId diffGit3,
      "diff --git a/a.py b/a.py" ∉ f.lines := by decide

/-- **C4 (amended).** For a diff made of consecutive file blocks that
are introduced solely by `--- a/` header lines (no `diff --git` lines),
one block per file with pairwise-distinct recorded paths, the segmenter
produces exactly one fragment per block, each fragment's lines are
exactly its block's lines (header included), and the newline join of the
fragments' raw texts reconstructs the original diff text. -/
theorem claim_C4_amended (hash : String → String) (diff : String)
    (blocks : List (String × List String))
    (hsplit : splitLines diff = blocks.flatMap fun b => b.2)
    (hblocks : ∀ b ∈ blocks, simpleBlockB b = true)
    (hnd : (blocks.map fun b => b.1).Nodup)
    (hsafe : ∀ b ∈ blocks,
      isArrayIndexKey b.1 = false ∧ b.1 ≠ "__proto__") :
    (parseAndHashDiff hash diff).length = blocks.length ∧
    (parseAndHashDiff hash diff).map (fun f => f.lines)
      = blocks.map (fun b => b.2) ∧
    joinSep "\n" ((parseAndHashDiff hash diff).map fun f => f.fullDiff)
      = diff := by
  have hne : blocks ≠ [] := by
    intro h
    subst h
    exact splitLines_ne_nil diff (by simpa using hsplit)
  have hmap : flushCurrent ((splitLines diff).foldl parseStep
      { currentFile := none, fileMap := [] }) = blocks := by
    rw [hsplit, parse_simple_fileMap blocks hblocks hne,
      foldl_fmInsert_fresh blocks [] hnd (fun b hb => (hsafe b hb).2)
        (by intro b _ e he; cases he)]
    simp
  have hent : fmEntries blocks = blocks := by
    unfold fmEntries
    have h1 : blocks.filter (fun e => isArrayIndexKey e.1) = [] :=
      List.filter_eq_nil_iff.mpr (fun b hb => by simp [(hsafe b hb).1])
    have h2 : blocks.filter (fun e => !(isArrayIndexKey e.1)) = blocks :=
      List.filter_eq_self.mpr (fun b hb => by simp [(hsafe b hb).1])
    rw [h1, h2]
    rfl
  have hfrag : parseAndHashDiff hash diff = blocks.map (mkDiffFile hash) := by
    rw [parseAndHashDiff_eq_map, hmap, hent]
  refine ⟨?_, ?_, ?_⟩
  · rw [hfrag, List.length_map]
  · rw [hfrag, List.map_map]
    rfl
  · rw [hfrag, List.map_map]
    have hmapj : (blocks.map ((fun f => f.fullDiff) ∘ mkDiffFile hash))
        = (blocks.map fun b => b.2).map (joinSep "\n") := by
      rw [List.map_map]
      rfl
    rw [hmapj, joinSep_flat _ ?hne2]
    case hne2 =>
      intro b hb
      rcases List.mem_map.mp hb with ⟨bb, hbb, rfl⟩
      exact simpleBlockB_ne_nil (hblocks bb hbb)
    show joinSep "\n" (blocks.flatMap fun b => b.2) = diff
    rw [← hsplit, joinSep_splitLines]

/-- Witness for the amended C4 at a concrete three-file diff. -/
theorem claim_C4_witness :
    (parseAndHashDiff hashId diffThree).length = blocksThree.length ∧
    (parseAndHashDiff hashId diffThree).map (fun f => f.lines)
      = blocksThree.map (fun b => b.2) ∧
    joinSep "\n" ((parseAndHashDiff hashId diffThree).map fun f => f.fullDiff)
      = diffThree :=
  claim_C4_amended hashId diffThree blocksThree (by decide) (by decide)
    (by decide) (by decide)

/-! ### C5 — retry policy -/

/-- **C5 (counterexample).** An axios failure with no HTTP status — the
shape of a network failure — makes `status && (...)` falsy, so the loop
propagates it immediately: only one attempt runs and no backoff is
slept, although the very next attempt would have succeeded.  The claim
says such failures are retried. -/
theorem claim_C5_counterexample :
    (getAiReviewAsJson attsNet).result = .error (.axios none) ∧
    (getAiReviewAsJson attsNet).attemptsMade = 1 ∧
    (getAiReviewAsJson attsNet).delays = [] ∧
    runJsonAttempt (attsNet 1) = .ok [] := by decide

/-- **C5 (amended).** Both client endpoints run at most 3 attempts with
exponential backoff delays `2^k * 1000` ms; every attempt before the
last failed with a retryable error, where an error is retryable exactly
when it is an HTTP 429, 503 or 5xx axios error, or not an axios error at
all; an axios error with no status (e.g. a network failure) or any other
4xx is propagated immediately without retry; the propagated result is
always the last attempt's outcome, and an error is propagated only when
it is non-retryable or the 3-attempt ceiling was reached. -/
theorem claim_C5_amended (atts : Nat → JsonAttempt)
    (atts' : Nat → TextAttempt) :
    (1 ≤ (getAiReviewAsJson atts).attemptsMade ∧
     (getAiReviewAsJson atts).attemptsMade ≤ 3 ∧
     (getAiReviewAsJson atts).delays
       = (List.range ((getAiReviewAsJson atts).attemptsMade - 1)).map
           (fun k => 2 ^ k * 1000) ∧
     (∀ k, k + 1 < (getAiReviewAsJson atts).attemptsMade →
       ∃ e, runJsonAttempt (atts k) = .error e ∧ geminiRetryable e = true) ∧
     (∀ v, (getAiReviewAsJson atts).result = .ok v →
       runJsonAttempt (atts ((getAiReviewAsJson atts).attemptsMade - 1))
         = .ok v) ∧
     (∀ e, (getAiReviewAsJson atts).result = .error e →
       runJsonAttempt (atts ((getAiReviewAsJson atts).attemptsMade - 1))
           = .error e ∧
         (geminiRetryable e = false ∨
           (getAiReviewAsJson atts).attemptsMade = 3))) ∧
    (1 ≤ (getAiReviewAsText atts').attemptsMade ∧
     (getAiReviewAsText atts').attemptsMade ≤ 3 ∧
     (getAiReviewAsText atts').delays
       = (List.range ((getAiReviewAsText atts').attemptsMade - 1)).map
           (fun k => 2 ^ k * 1000) ∧
     (∀ k, k + 1 < (getAiReviewAsText atts').attemptsMade →
       ∃ e, runTextAttempt (atts' k) = .error e ∧ geminiRetryable e = true) ∧
     (∀ v, (getAiReviewAsText atts').result = .ok v →
       runTextAttempt (atts' ((getAiReviewAsText atts').attemptsMade - 1))
         = .ok v) ∧
     (∀ e, (getAiReviewAsText atts').result = .error e →
       runTextAttempt (atts' ((getAiReviewAsText atts').attemptsMade - 1))
           = .error e ∧
         (geminiRetryable e = false ∨
           (getAiReviewAsText atts').attemptsMade = 3))) :=
  ⟨geminiRetry_spec fun i => runJsonAttempt (atts i),
   geminiRetry_spec fun i => runTextAttempt (atts' i)⟩

/-- Witness for the amended C5: after one 503 the loop sleeps 1000 ms
once and the second attempt's parsed result is propagated. -/
theorem claim_C5_witness :
    (getAiReviewAsJson attsRetry).attemptsMade = 2 ∧
    (getAiReviewAsJson attsRetry).delays = [1000] ∧
    runJsonAttempt (attsRetry ((getAiReviewAsJson attsRetry).attemptsMade - 1))
      = .ok [] :=
  ⟨by decide, by decide,
   (claim_C5_amended attsRetry (fun _ => .failure (.plain "unused"))).1.2.2.2.2.1
     [] (by decide)⟩

/-! ### C1 — warm-cache determinism -/

/-- **C1 (counterexample).** The first pass over `diffTwo` with an empty
store completes the structured path and populates the cache (the store
becomes non-empty), but the structured result attributes no comment to
`b.py`, so no entry is written for it: the second pass over the
byte-identical diff still invokes the backend and reports only 1 of 2
files cached. -/
theorem claim_C1_counterexample :
    (processDiff hashId jaOneA taPlain ioAllOk 0 [] diffTwo).thrown = none ∧
    (processDiff hashId jaOneA taPlain ioAllOk 0 [] diffTwo).fallback = none ∧
    (processDiff hashId jaOneA taPlain ioAllOk 0 [] diffTwo).cache ≠ [] ∧
    (processDiff hashId jaOneA taPlain ioAllOk 0
        (processDiff hashId jaOneA taPlain ioAllOk 0 [] diffTwo).cache
        diffTwo).jsonBatches ≠ [] ∧
    (processDiff hashId jaOneA taPlain ioAllOk 0
        (processDiff hashId jaOneA taPlain ioAllOk 0 [] diffTwo).cache
        diffTwo).fileCachedCount = 1 ∧
    (processDiff hashId jaOneA taPlain ioAllOk 0
        (processDiff hashId jaOneA taPlain ioAllOk 0 [] diffTwo).cache
        diffTwo).filesTotalCount = 2 := by decide

/-- **C1 (amended).** If the first pass runs over an empty store with
fault-free cache writes and completes the structured path, and the
structured result attributes at least one comment to every segmented
file and every comment to some segmented file, then a second pass over
the byte-identical diff and the first pass's store makes zero AI backend
calls (neither endpoint), reports `fileCachedCount = filesTotalCount`,
and produces the same set of LineComments as the first pass. -/
theorem claim_C1_amended (hash : String → String)
    (ja ja2 : Nat → JsonAttempt) (ta ta2 : Nat → TextAttempt)
    (io io2 : IoEnv) (repoId : Nat) (diff : String) (cs : List LineComment)
    (hwf : ∀ k, io.writeFault k = false)
    (hrf2 : ∀ k, io2.readFault k = false)
    (hok : (getAiReviewAsJson ja).result = .ok cs)
    (hcover : ∀ f ∈ parseAndHashDiff hash diff, ∃ c ∈ cs, c.file = f.path)
    (hattr : ∀ c ∈ cs, ∃ f ∈ parseAndHashDiff hash diff, c.file = f.path) :
    (processDiff hash ja2 ta2 io2 repoId
        (processDiff hash ja ta io repoId [] diff).cache diff).jsonBatches
      = [] ∧
    (processDiff hash ja2 ta2 io2 repoId
        (processDiff hash ja ta io repoId [] diff).cache diff).textBatches
      = [] ∧
    (processDiff hash ja2 ta2 io2 repoId
        (processDiff hash ja ta io repoId [] diff).cache diff).fileCachedCount
      = (processDiff hash ja2 ta2 io2 repoId
          (processDiff hash ja ta io repoId [] diff).cache diff).filesTotalCount ∧
    (∀ c, c ∈ (processDiff hash ja2 ta2 io2 repoId
          (processDiff hash ja ta io repoId [] diff).cache diff).comments
        ↔ c ∈ (processDiff hash ja ta io repoId [] diff).comments) := by
  have hnd := parse_paths_nodup hash diff
  by_cases hfe : parseAndHashDiff hash diff = []
  · have hr1cache : (processDiff hash ja ta io repoId [] diff).cache = [] := by
      rw [processDiff_eq, postStage_cache, hfe]
      rw [show partitionFiles ([] : Cache) io.readFault repoId [] = (0, [], [])
        from rfl]
      rw [aiStage_empty]
    have hr1comments :
        (processDiff hash ja ta io repoId [] diff).comments = [] := by
      rw [processDiff_eq, postStage_comments, hfe]
      rw [show partitionFiles ([] : Cache) io.readFault repoId [] = (0, [], [])
        from rfl]
      rw [aiStage_empty]
    rw [hr1cache]
    have hp2 : partitionFiles ([] : Cache) io2.readFault repoId []
        = (0, [], []) := rfl
    refine ⟨?_, ?_, ?_, ?_⟩
    · simp only [processDiff_eq, postStage_jsonBatches, hfe, hp2]
      rw [aiStage_empty]
    · simp only [processDiff_eq, postStage_textBatches, hfe, hp2]
      rw [aiStage_empty]
    · simp only [processDiff_eq, postStage_fileCached, postStage_filesTotal,
        hfe, hp2]
      rfl
    · intro c
      rw [hr1comments]
      simp only [processDiff_eq, postStage_comments, hfe, hp2, aiStage_empty]
  · have hacc : (partitionFiles [] io.readFault repoId
        (parseAndHashDiff hash diff)).2.1 = [] := by
      rw [partition_empty]
    have hpend : (partitionFiles [] io.readFault repoId
        (parseAndHashDiff hash diff)).2.2 = parseAndHashDiff hash diff := by
      rw [partition_empty]
    have hcnt : (partitionFiles [] io.readFault repoId
        (parseAndHashDiff hash diff)).1 = 0 := by
      rw [partition_empty]
    have hs1 : aiStage ja ta io.writeFault repoId []
        (partitionFiles [] io.readFault repoId
          (parseAndHashDiff hash diff)).2.1
        (partitionFiles [] io.readFault repoId
          (parseAndHashDiff hash diff)).2.2
        = { cache := writeBack [] io.writeFault repoId
              (parseAndHashDiff hash diff) cs,
            comments := [] ++ cs, fallback := none,
            jsonBatches := [joinSep "\n"
              ((parseAndHashDiff hash diff).map fun f => f.fullDiff)],
            textBatches := [], thrown := none } := by
      rw [hacc, hpend]
      exact aiStage_json_ok ja ta io.writeFault repoId [] [] _ cs hfe hok
    have hr1cache : (processDiff hash ja ta io repoId [] diff).cache
        = writeBack [] io.writeFault repoId (parseAndHashDiff hash diff) cs := by
      rw [processDiff_eq, postStage_cache, hs1]
    have hr1comments :
        (processDiff hash ja ta io repoId [] diff).comments = cs := by
      rw [processDiff_eq, postStage_comments, hs1]
      simp
    have hhit : ∀ f ∈ parseAndHashDiff hash diff,
        getCachedReview (processDiff hash ja ta io repoId [] diff).cache
            io2.readFault ⟨repoId, f.path, f.contentHash⟩
          = some (.jsonComments (cs.filter fun c2 => c2.file = f.path)) := by
      intro f hf
      unfold getCachedReview
      rw [hrf2 ⟨repoId, f.path, f.contentHash⟩, if_neg (by simp), hr1cache]
      exact writeBack_get io.writeFault hwf repoId _ cs f hf hnd
        (hcover f hf) []
    have hpart2 : partitionFiles
        (processDiff hash ja ta io repoId [] diff).cache io2.readFault repoId
        (parseAndHashDiff hash diff)
        = ((parseAndHashDiff hash diff).length,
           (parseAndHashDiff hash diff).flatMap
             (fun f => cs.filter fun c2 => c2.file = f.path), []) :=
      partition_allhit _ _ _ _ _ hhit
    refine ⟨?_, ?_, ?_, ?_⟩
    · rw [processDiff_eq, postStage_jsonBatches]
      simp only [hpart2]
      rw [aiStage_empty]
    · rw [processDiff_eq, postStage_textBatches]
      simp only [hpart2]
      rw [aiStage_empty]
    · rw [processDiff_eq]
      simp only [postStage_fileCached, postStage_filesTotal, hpart2]
    · intro c
      rw [hr1comments, processDiff_eq, postStage_comments]
      simp only [hpart2, aiStage_empty]
      constructor
      · intro hc
        rcases List.mem_flatMap.mp hc with ⟨f, hf, hcf⟩
        exact (List.mem_filter.mp hcf).1
      · intro hc
        rcases hattr c hc with ⟨f, hf, hcf⟩
        exact List.mem_flatMap.mpr
          ⟨f, hf, List.mem_filter.mpr ⟨hc, by simp [hcf]⟩⟩

/-- Witness for the amended C1 at a concrete two-file diff whose
structured review touches both files. -/
theorem claim_C1_witness :
    (processDiff hashId jaBoth taPlain ioAllOk 0
        (processDiff hashId jaBoth taPlain ioAllOk 0 [] diffTwo).cache
        diffTwo).jsonBatches = [] ∧
    (processDiff hashId jaBoth taPlain ioAllOk 0
        (processDiff hashId jaBoth taPlain ioAllOk 0 [] diffTwo).cache
        diffTwo).textBatches = [] ∧
    (processDiff hashId jaBoth taPlain ioAllOk 0
        (processDiff hashId jaBoth taPlain ioAllOk 0 [] diffTwo).cache
        diffTwo).fileCachedCount
      = (processDiff hashId jaBoth taPlain ioAllOk 0
          (processDiff hashId jaBoth taPlain ioAllOk 0 [] diffTwo).cache
          diffTwo).filesTotalCount ∧
    (∀ c, c ∈ (processDiff hashId jaBoth taPlain ioAllOk 0
          (processDiff hashId jaBoth taPlain ioAllOk 0 [] diffTwo).cache
          diffTwo).comments
        ↔ c ∈ (processDiff hashId jaBoth taPlain ioAllOk 0 [] diffTwo).comments) :=
  claim_C1_amended hashId jaBoth jaBoth taPlain taPlain ioAllOk ioAllOk 0
    diffTwo [⟨"a.py", 1, "use f-strings"⟩, ⟨"b.py", 2, "rename variable"⟩]
    (fun _ => rfl) (fun _ => rfl) (by decide) (by decide) (by decide)

/-! ### C6 — the cache is strictly advisory -/

/-- Everything the Gemini stage produces except the cache itself is
independent of which cache writes fail. -/
theorem aiStage_wf_fields (ja : Nat → JsonAttempt) (ta : Nat → TextAttempt)
    (wf1 wf2 : CacheKey → Bool) (repoId : Nat) (σ : Cache)
    (acc : List LineComment) (pending : List DiffFile) :
    (aiStage ja ta wf1 repoId σ acc pending).comments
      = (aiStage ja ta wf2 repoId σ acc pending).comments ∧
    (aiStage ja ta wf1 repoId σ acc pending).fallback
      = (aiStage ja ta wf2 repoId σ acc pending).fallback ∧
    (aiStage ja ta wf1 repoId σ acc pending).jsonBatches
      = (aiStage ja ta wf2 repoId σ acc pending).jsonBatches ∧
    (aiStage ja ta wf1 repoId σ acc pending).textBatches
      = (aiStage ja ta wf2 repoId σ acc pending).textBatches ∧
    (aiStage ja ta wf1 repoId σ acc pending).thrown
      = (aiStage ja ta wf2 repoId σ acc pending).thrown := by
  by_cases hp : pending.length > 0
  · cases hj : (getAiReviewAsJson ja).result with
    | ok cs => simp [aiStage, hp, hj]
    | error e =>
      cases ht : (getAiReviewAsText ta).result <;> simp [aiStage, hp, hj, ht]
  · simp [aiStage, hp]

/-- **C6.** Cache operations never propagate a failure: a read-layer
fault makes `getCachedReview` answer "absent" (the orchestrator then
falls through to a fresh AI call, the faulted file landing in the
pending list by the partition loop); a write-layer fault makes
`cacheReview` return a failure flag with the store unchanged; and a pass
run with any write-fault pattern produces the same comments, fallback,
thrown exception, posted-comment count and counters as the same pass
with any other write-fault pattern — only the resulting store may
differ. -/
theorem claim_C6 (σ : Cache) (rf wfp : CacheKey → Bool) (k : CacheKey)
    (v : ReviewPayload) (hash : String → String) (ja : Nat → JsonAttempt)
    (ta : Nat → TextAttempt) (io io' : IoEnv) (repoId : Nat) (diff : String)
    (hrf : io.readFault = io'.readFault) (ht : io.token = io'.token)
    (hpo : io.postOk = io'.postOk) (hps : io.postSummary = io'.postSummary)
    (hpf : io.postFallback = io'.postFallback) :
    (rf k = true → getCachedReview σ rf k = none) ∧
    (wfp k = true → cacheReview σ wfp k v = (σ, false)) ∧
    ((processDiff hash ja ta io repoId σ diff).comments
       = (processDiff hash ja ta io' repoId σ diff).comments ∧
     (processDiff hash ja ta io repoId σ diff).fallback
       = (processDiff hash ja ta io' repoId σ diff).fallback ∧
     (processDiff hash ja ta io repoId σ diff).thrown
       = (processDiff hash ja ta io' repoId σ diff).thrown ∧
     (processDiff hash ja ta io repoId σ diff).lineCommentCount
       = (processDiff hash ja ta io' repoId σ diff).lineCommentCount ∧
     (processDiff hash ja ta io repoId σ diff).filesTotalCount
       = (processDiff hash ja ta io' repoId σ diff).filesTotalCount ∧
     (processDiff hash ja ta io repoId σ diff).fileCachedCount
       = (processDiff hash ja ta io' repoId σ diff).fileCachedCount) := by
  refine ⟨fun h => by simp [getCachedReview, h],
    fun h => by simp [cacheReview, h], ?_⟩
  have hfields := aiStage_wf_fields ja ta io.writeFault io'.writeFault repoId σ
    (partitionFiles σ io'.readFault repoId (parseAndHashDiff hash diff)).2.1
    (partitionFiles σ io'.readFault repoId (parseAndHashDiff hash diff)).2.2
  rw [processDiff_eq, processDiff_eq, hrf]
  have hctrl := postStage_ctrl_congr io io'
    (parseAndHashDiff hash diff).length
    (partitionFiles σ io'.readFault repoId (parseAndHashDiff hash diff)).1
    (parseAndHashDiff hash diff).length
    (partitionFiles σ io'.readFault repoId (parseAndHashDiff hash diff)).1
    _ _ ht hpo hps hpf hfields.1 hfields.2.1 hfields.2.2.2.2
  refine ⟨?_, ?_, hctrl.1, hctrl.2, ?_, ?_⟩
  · rw [postStage_comments, postStage_comments]
    exact hfields.1
  · rw [postStage_fallback, postStage_fallback]
    exact hfields.2.1
  · rw [postStage_filesTotal, postStage_filesTotal]
  · rw [postStage_fileCached, postStage_fileCached]

/-- Witness for C6: a faulted read is a miss, a faulted write is a
non-fatal failure flag, and a pass whose writes all fail produces the
same comments as one whose writes all succeed. -/
theorem claim_C6_witness :
    (getCachedReview σSeedA (fun _ => true)
        ⟨0, "a.py", "--- a/a.py\n+++ b/a.py\n@@ -1 +1 @@\n-x\n+y"⟩ = none) ∧
    (cacheReview σSeedA (fun _ => true) ⟨0, "a.py", "h"⟩
        (.jsonComments []) = (σSeedA, false)) ∧
    (processDiff hashId jaOneA taPlain ioAllOk 0 σSeedA diffTwo).comments
      = (processDiff hashId jaOneA taPlain ioWFail 0 σSeedA diffTwo).comments :=
  ⟨(claim_C6 σSeedA (fun _ => true) (fun _ => true)
      ⟨0, "a.py", "--- a/a.py\n+++ b/a.py\n@@ -1 +1 @@\n-x\n+y"⟩
      (.jsonComments []) hashId jaOneA taPlain ioAllOk ioWFail 0 diffTwo
      rfl rfl rfl rfl rfl).1 rfl,
   (claim_C6 σSeedA (fun _ => true) (fun _ => true) ⟨0, "a.py", "h"⟩
      (.jsonComments []) hashId jaOneA taPlain ioAllOk ioWFail 0 diffTwo
      rfl rfl rfl rfl rfl).2.1 rfl,
   (claim_C6 σSeedA (fun _ => true) (fun _ => true) ⟨0, "a.py", "h"⟩
      (.jsonComments []) hashId jaOneA taPlain ioAllOk ioWFail 0 diffTwo
      rfl rfl rfl rfl rfl).2.2.1⟩

/-! ### C7 — cache write-back shape -/

/-- **C7 (counterexample).** On `diffTwo` with an empty store both files
are pending and the structured review succeeds attributing a comment
only to `a.py`: the pass completes, yet no CacheEntry at all is written
for `b.py` — the claim requires one holding the empty list. -/
theorem claim_C7_counterexample :
    ((partitionFiles [] ioAllOk.readFault 0
        (parseAndHashDiff hashId diffTwo)).2.2).map (fun f => f.path)
      = ["a.py", "b.py"] ∧
    (processDiff hashId jaOneA taPlain ioAllOk 0 [] diffTwo).thrown = none ∧
    (processDiff hashId jaOneA taPlain ioAllOk 0 [] diffTwo).fallback = none ∧
    cacheGet (processDiff hashId jaOneA taPlain ioAllOk 0 [] diffTwo).cache
      ⟨0, "b.py", "--- a/b.py\n+++ b/b.py\n@@ -1 +1 @@\n-u\n+v"⟩ = none := by
  decide

/-- **C7 (amended).** On a structured success with fault-free writes,
every pending file with at least one attributed comment ends with
exactly one CacheEntry under its `(repositoryId, path, contentHash)`
key, holding exactly the returned comments attributed to it; a pending
file with no attributed comment keeps its previous (absent) entry — no
CacheEntry is written for it; and all new comments are merged into the
output accumulator after the cached ones. -/
theorem claim_C7_amended (hash : String → String) (ja : Nat → JsonAttempt)
    (ta : Nat → TextAttempt) (io : IoEnv) (repoId : Nat) (σ : Cache)
    (diff : String) (cs : List LineComment)
    (hwf : ∀ k, io.writeFault k = false)
    (hok : (getAiReviewAsJson ja).result = .ok cs)
    (hne : (partitionFiles σ io.readFault repoId
        (parseAndHashDiff hash diff)).2.2 ≠ []) :
    (∀ f ∈ (partitionFiles σ io.readFault repoId
        (parseAndHashDiff hash diff)).2.2,
      (∃ c ∈ cs, c.file = f.path) →
        cacheGet (processDiff hash ja ta io repoId σ diff).cache
            ⟨repoId, f.path, f.contentHash⟩
          = some (.jsonComments (cs.filter fun c2 => c2.file = f.path))) ∧
    (∀ f ∈ (partitionFiles σ io.readFault repoId
        (parseAndHashDiff hash diff)).2.2,
      (∀ c ∈ cs, c.file ≠ f.path) →
        cacheGet (processDiff hash ja ta io repoId σ diff).cache
            ⟨repoId, f.path, f.contentHash⟩
          = cacheGet σ ⟨repoId, f.path, f.contentHash⟩) ∧
    (processDiff hash ja ta io repoId σ diff).comments
      = (partitionFiles σ io.readFault repoId
          (parseAndHashDiff hash diff)).2.1 ++ cs := by
  have hcache : (processDiff hash ja ta io repoId σ diff).cache
      = writeBack σ io.writeFault repoId
          (partitionFiles σ io.readFault repoId
            (parseAndHashDiff hash diff)).2.2 cs := by
    rw [processDiff_eq, postStage_cache,
      aiStage_json_ok _ _ _ _ _ _ _ cs hne hok]
  have hnd := pending_paths_nodup hash diff σ io.readFault repoId
  refine ⟨?_, ?_, ?_⟩
  · intro f hf hex
    rw [hcache]
    exact writeBack_get io.writeFault hwf repoId _ cs f hf hnd hex σ
  · intro f hf hnone
    rw [hcache]
    exact writeBack_get_other io.writeFault repoId _ cs
      ⟨repoId, f.path, f.contentHash⟩ (fun c hc => hnone c hc) σ
  · rw [processDiff_eq, postStage_comments,
      aiStage_json_ok _ _ _ _ _ _ _ cs hne hok]

/-- Witness for the amended C7: after a structured success touching both
files, `a.py`'s entry holds exactly its attributed comments. -/
theorem claim_C7_witness :
    cacheGet (processDiff hashId jaBoth taPlain ioAllOk 0 [] diffTwo).cache
        ⟨0, fileA.path, fileA.contentHash⟩
      = some (.jsonComments
          (([⟨"a.py", 1, "use f-strings"⟩,
             ⟨"b.py", 2, "rename variable"⟩] : List LineComment).filter
            fun c2 => c2.file = fileA.path)) :=
  (claim_C7_amended hashId jaBoth taPlain ioAllOk 0 [] diffTwo
      [⟨"a.py", 1, "use f-strings"⟩, ⟨"b.py", 2, "rename variable"⟩]
      (fun _ => rfl) (by decide) (by decide)).1
    fileA (by decide) (by decide)

/-! ### C8 — unparseable structured response -/

/-- **C8 (code bug).** When the backend responds but the text cannot be
parsed as the structured per-line format, `getAiReviewAsJson` logs
"falling back to text" yet returns the empty structured list instead of
throwing, so the orchestrator treats the pass as a structured success
with zero comments: the free-text endpoint is never invoked, no
fallback review exists or is posted, and no per-file cache entries are
written — whereas the claim (and the code's own log line) say a single
free-text review covering the batch is produced and posted as one
comment. -/
theorem claim_C8_divergence :
    runJsonAttempt (.response (some (.plain "Looks good to me!"))) = .ok [] ∧
    (getAiReviewAsJson jaPlainText).result = .ok [] ∧
    (processDiff hashId jaPlainText taPlain ioAllOk 0 [] diffTwo).thrown
      = none ∧
    (processDiff hashId jaPlainText taPlain ioAllOk 0 [] diffTwo).fallback
      = none ∧
    (processDiff hashId jaPlainText taPlain ioAllOk 0 [] diffTwo).textBatches
      = [] ∧
    (processDiff hashId jaPlainText taPlain ioAllOk 0 [] diffTwo).comments
      = [] ∧
    (processDiff hashId jaPlainText taPlain ioAllOk 0 [] diffTwo).lineCommentCount
      = 0 ∧
    (processDiff hashId jaPlainText taPlain ioAllOk 0 [] diffTwo).cache
      = [] := by decide

/-! ### C9 and C10 — pass-level failure reporting -/

theorem finishMetrics_ok_or_fail (r : ProcessResult) :
    ((finishMetrics r).success = true ∧
      (finishMetrics r).errorMessage = none) ∨
    ((finishMetrics r).success = false ∧
      (finishMetrics r).errorMessage ≠ none) := by
  cases h : r.thrown <;> simp [finishMetrics, h, failMetrics]

theorem finishMetrics_fail_counts (r : ProcessResult)
    (h : (finishMetrics r).success = false) :
    (finishMetrics r).filesTotalCount = some 0 ∧
    (finishMetrics r).fileCachedCount = some 0 := by
  cases hr : r.thrown <;> simp [finishMetrics, hr, failMetrics] at h ⊢

/-- **C9.** For every input and collaborator outcome, the pass returns a
structured metrics record: success with no error message, or failure
with a captured non-null error message — it never throws past its own
boundary (the embedding is total) and never yields an ambiguous state. -/
theorem claim_C9 (hash : String → String) (ja : Nat → JsonAttempt)
    (ta : Nat → TextAttempt) (io : IoEnv) (payload : Option PrPayload)
    (findRepo : Except String (Option DbRepository))
    (fetchDiff : Except String String) (σ : Cache) :
    ((reviewPullRequest hash ja ta io payload findRepo fetchDiff σ).success
        = true ∧
     (reviewPullRequest hash ja ta io payload findRepo fetchDiff σ).errorMessage
        = none) ∨
    ((reviewPullRequest hash ja ta io payload findRepo fetchDiff σ).success
        = false ∧
     (reviewPullRequest hash ja ta io payload findRepo fetchDiff σ).errorMessage
        ≠ none) := by
  unfold reviewPullRequest
  cases payload with
  | none => simp [failMetrics]
  | some p =>
    repeat' split
    all_goals first
      | exact finishMetrics_ok_or_fail _
      | simp [failMetrics, earlySuccess]

/-- **C10.** Whenever a pass ends in failure the returned metrics report
`filesTotalCount = 0` and `fileCachedCount = 0`, regardless of how many
fragments were segmented or how many cache hits were counted before the
failure. -/
theorem claim_C10 (hash : String → String) (ja : Nat → JsonAttempt)
    (ta : Nat → TextAttempt) (io : IoEnv) (payload : Option PrPayload)
    (findRepo : Except String (Option DbRepository))
    (fetchDiff : Except String String) (σ : Cache)
    (hfail : (reviewPullRequest hash ja ta io payload findRepo fetchDiff σ).success
        = false) :
    (reviewPullRequest hash ja ta io payload findRepo fetchDiff σ).filesTotalCount
        = some 0 ∧
    (reviewPullRequest hash ja ta io payload findRepo fetchDiff σ).fileCachedCount
        = some 0 := by
  revert hfail
  unfold reviewPullRequest
  cases payload with
  | none => simp [failMetrics]
  | some p =>
    repeat' split
    all_goals first
      | exact fun h => finishMetrics_fail_counts _ h
      | simp [failMetrics, earlySuccess]

/-- Witness for C10: a malformed payload fails the pass with zeroed file
counters. -/
theorem claim_C10_witness :
    (reviewPullRequest hashId jaOneA taPlain ioAllOk none
        (.ok none) (.ok "") []).success = false ∧
    (reviewPullRequest hashId jaOneA taPlain ioAllOk none
        (.ok none) (.ok "") []).filesTotalCount = some 0 ∧
    (reviewPullRequest hashId jaOneA taPlain ioAllOk none
        (.ok none) (.ok "") []).fileCachedCount = some 0 :=
  ⟨by decide,
   (claim_C10 hashId jaOneA taPlain ioAllOk none (.ok none) (.ok "") []
     (by decide)).1,
   (claim_C10 hashId jaOneA taPlain ioAllOk none (.ok none) (.ok "") []
     (by decide)).2⟩

end AiPrReviewer
